import Mathlib

/-!
# ytb2bili — the Bilibili upload step

A shallow embedding of `internal/chain_task/handlers/upload_to_bilibili.go`
(`UploadToBilibili.Execute`, `findVideoFiles`, `buildStudioInfo`,
`truncateTitle`, `getUserFriendlyError`) and of `parseMetadataJSON` in
`gemini_client.go`.

Modelling conventions.

* A Go `string` is read as the list of its Unicode code points (`Str`), so
  `len([]rune(s))` is `s.length`, `string(runes[:n])` is `s.take n`, and the
  byte length `len(s)` is `utf8Len s`.
* Collaborators (credential store, directory listing, upload client,
  persistence, the metadata backfill) are not part of the source; the outcome
  of each of their calls is a field of `Collaborators`, over which the
  theorems quantify.
* A Go run-time panic (nil dereference, slice index out of range) is the
  result `none`.
* Logging is not modelled.
-/

namespace Ytb2bili

/-- A Go string, as the sequence of its code points. -/
abbrev Str := List Char

/-! ## Go standard library -/

/-- Byte length `len(s)` of a string: the size of its UTF-8 encoding. -/
def utf8Len (s : Str) : Nat := (s.map Char.utf8Size).sum

/-- Model of `strings.HasPrefix(s, p)`. -/
def stringsHasPrefix : Str → Str → Bool
  | _, [] => true
  | [], _ :: _ => false
  | c :: cs, p :: ps => c == p && stringsHasPrefix cs ps

/-- Model of `strings.Contains(s, substr)`: `substr` occurs in `s` at some offset. -/
def stringsContains : Str → Str → Bool
  | [], substr => stringsHasPrefix [] substr
  | c :: cs, substr => stringsHasPrefix (c :: cs) substr || stringsContains cs substr

/-- Left-to-right replacement of non-overlapping occurrences of a non-empty
`old`; `skip` counts the code points of the current occurrence still to drop. -/
def replaceFrom (old new : Str) : Nat → Str → Str
  | _, [] => []
  | skip + 1, _ :: cs => replaceFrom old new skip cs
  | 0, c :: cs =>
    if stringsHasPrefix (c :: cs) old then new ++ replaceFrom old new (old.length - 1) cs
    else c :: replaceFrom old new 0 cs

/-- Model of `strings.ReplaceAll(s, old, new)`. For an empty `old` Go inserts
`new` before every code point and at the end. -/
def stringsReplaceAll (s old new : Str) : Str :=
  if old = [] then new ++ (s.map fun c => c :: new).flatten
  else replaceFrom old new 0 s

/-- Model of `unicode.IsSpace`. -/
def unicodeIsSpace (c : Char) : Bool :=
  let n := c.toNat
  (9 ≤ n && n ≤ 13) || n = 0x20 || n = 0x85 || n = 0xA0 || n = 0x1680 ||
  (0x2000 ≤ n && n ≤ 0x200A) || n = 0x2028 || n = 0x2029 || n = 0x202F ||
  n = 0x205F || n = 0x3000

/-- Model of `strings.TrimSpace`. -/
def stringsTrimSpace (s : Str) : Str :=
  ((s.dropWhile unicodeIsSpace).reverse.dropWhile unicodeIsSpace).reverse

/-- The regexp class `\s` of Go (RE2): `[\t\n\f\r ]`. -/
def reSpace (c : Char) : Bool :=
  c = '\t' || c = '\n' || c = '\x0c' || c = '\r' || c = ' '

/-- Model of `Regexp.ReplaceAllString` for a pattern that never matches the
empty string: `matchLen s` is the length of the match that starts at the head
of `s`, when there is one. The leftmost match is replaced and the search goes
on after it. -/
def regexpReplaceAll (matchLen : Str → Option Nat) (repl : Str) : Nat → Str → Str
  | _, [] => []
  | skip + 1, _ :: cs => regexpReplaceAll matchLen repl skip cs
  | 0, c :: cs =>
    match matchLen (c :: cs) with
    | some n => repl ++ regexpReplaceAll matchLen repl (n - 1) cs
    | none => c :: regexpReplaceAll matchLen repl 0 cs

/-- The match of `\s*#[^\s#]+` anchored at the head of `s`: the whole run of
`\s`, then `#`, then the whole non-empty run of `[^\s#]`. -/
def hashtagMatch (s : Str) : Option Nat :=
  let ws := s.takeWhile reSpace
  match s.dropWhile reSpace with
  | '#' :: rest =>
    let run := rest.takeWhile fun c => !(reSpace c || c = '#')
    if run.length = 0 then none else some (ws.length + 1 + run.length)
  | _ => none

/-- The match of `\s+` anchored at the head of `s`. -/
def spacesMatch (s : Str) : Option Nat :=
  let ws := s.takeWhile reSpace
  if ws.length = 0 then none else some ws.length

/-- Model of `%d` for an `int`. -/
def fmtInt (n : Int) : Str :=
  if n < 0 then '-' :: Nat.toDigits 10 n.natAbs else Nat.toDigits 10 n.natAbs

/-- Model of `unicode.ToLower` as far as it can produce an ASCII letter: the
ASCII capitals, U+212A (Kelvin sign, to `k`) and U+0130 (to `i`). Every other
code point is mapped by Go to a non-ASCII code point or to itself, and is
left in place here. -/
def unicodeToLower (c : Char) : Char :=
  if c.toNat = 0x212A then 'k'
  else if c.toNat = 0x130 then 'i'
  else c.toLower

/-- Model of `strings.ToLower`. -/
def stringsToLower (s : Str) : Str := s.map unicodeToLower

/-- Scan of `filepath.Ext` over the reversed path: `acc` holds the code points
already passed, in path order. -/
def extFrom : Str → Str → Str
  | [], _ => []
  | c :: rest, acc =>
    if c = '/' then [] else if c = '.' then '.' :: acc else extFrom rest (c :: acc)

/-- Model of `filepath.Ext`: the suffix that starts at the last dot of the
last path element, empty when there is none. -/
def filepathExt (path : Str) : Str := extFrom path.reverse []

/-! ## Data model -/

/-- The stored content record (`model.SavedVideo`), with the fields the
handler reads or writes. -/
structure SavedVideo where
  VideoID : Str
  URL : Str
  Title : Str
  Description : Str
  GeneratedTitle : Str
  GeneratedDesc : Str
  GeneratedTags : Str
  BiliBVID : Str
  BiliAID : Int
deriving DecidableEq

/-- The operator configuration `App.Config.BilibiliConfig`. -/
structure BilibiliConfig where
  CustomTitleTemplate : Str
  UseOriginalTitle : Bool
  CustomDescTemplate : Str
  UseOriginalDesc : Bool
  Copyright : Int
  NoReprint : Int
  Source : Str
  Tid : Int
  Dynamic : Str
  OpenElec : Int
  SelectionReserve : Int
  UpSelectionReply : Int
  UpCloseReply : Int
  UpCloseReward : Int
deriving DecidableEq

/-- The handle `bilibili.Video` returned by the upload client. -/
structure Video where
  Filename : Str
  Title : Str
deriving DecidableEq

/-- The submission spec `bilibili.Studio`. -/
structure Studio where
  Copyright : Int
  Title : Str
  Desc : Str
  Tag : Str
  Tid : Int
  Cover : Str
  Dynamic : Str
  OpenSubtitle : Bool
  Interactive : Int
  Dolby : Int
  LosslessMusic : Int
  NoReprint : Int
  OpenElec : Int
  Videos : List Video
  Source : Str
deriving DecidableEq

/-- A value stored under a key of the submission result's data object. A
`float64` is kept as the integer `int64(x)` it converts to, the only way the
handler reads it. -/
inductive DataValue where
  | str (s : Str)
  | float64 (asInt64 : Int)
  | other
deriving DecidableEq

/-- The `Data interface{}` of a submission result: nil, a
`map[string]interface{}`, or anything else. -/
inductive Payload where
  | null
  | object (fields : List (Str × DataValue))
  | other
deriving DecidableEq

/-- The result of `SubmitVideo`. -/
structure SubmitResult where
  Code : Int
  Message : Str
  Data : Payload
deriving DecidableEq

/-- A value of the run context `map[string]interface{}`. -/
inductive Value where
  | str (s : Str)
  | int64 (n : Int)
  | video (v : Video)
  | result (r : SubmitResult)
  | other
deriving DecidableEq

/-- The run context: a map from keys to loosely typed values. -/
abbrev Context := Str → Option Value

/-- Assignment `context[key] = v`. -/
def Context.set (context : Context) (key : Str) (v : Value) : Context :=
  fun k => if k = key then some v else context k

/-- An entry of the directory listing (`os.DirEntry`). -/
structure DirEntry where
  Name : Str
  IsDir : Bool
deriving DecidableEq

/-- The handler `UploadToBilibili`: the state it reads from
`t.StateManager` and `t.App.Config`. -/
structure UploadToBilibili where
  VideoID : Str
  CurrentDir : Str
  BilibiliConfig : Option BilibiliConfig

/-- The outcome of every call the handler makes to a collaborator, in the
order of the source. A Go `error` is its message text. -/
structure Collaborators where
  /-- Outcome of `loginStore.IsValid()`. -/
  loginIsValid : Bool
  /-- Outcome of `loginStore.Load()` in `Execute`. -/
  loginLoad : Except Str Unit
  /-- Outcome of `os.ReadDir(CurrentDir)`. -/
  readDir : Except Str (List DirEntry)
  /-- The function `filepath.Join`. -/
  filepathJoin : Str → Str → Str
  /-- Outcome of `uploadClient.UploadVideo(path)`. -/
  uploadVideo : Str → Except Str Video
  /-- Outcome of `GetVideoByVideoID` in `buildStudioInfo`. -/
  getVideo : Except Str SavedVideo
  /-- Outcome of `fetchAndSaveMetadata`; on success, the pointer returned by
  the second `GetVideoByVideoID`, whose error is discarded (`none` is nil). -/
  backfill : Except Str (Option SavedVideo)
  /-- Outcome of `loginStore.Load()` before the cover upload. -/
  coverLoginLoad : Except Str Unit
  /-- Outcome of `uploadClient.UploadCover(path)`. -/
  uploadCover : Str → Except Str Str
  /-- Whether `os.Stat` finds `zh.srt` in the working directory. -/
  zhSrtExists : Bool
  /-- Outcome of `uploadClient.SubmitVideo(studio)`. -/
  submitVideo : Studio → Except Str SubmitResult
  /-- Outcome of `GetVideoByVideoID` after the submission. -/
  getVideoAfter : Except Str SavedVideo
  /-- Outcome of `UpdateVideo(savedVideo)`. -/
  updateVideo : SavedVideo → Except Str Unit

/-! ## The error classifier -/

/-- Embedding of `getUserFriendlyError`; `errorStr` is `err.Error()`. -/
def getUserFriendlyError (errorStr operation : Str) : Str :=
  if stringsContains errorStr "broken pipe".toList || stringsContains errorStr "connection reset".toList then
    operation ++ "失败：网络连接中断，请检查网络状态后重试".toList
  else if stringsContains errorStr "timeout".toList || stringsContains errorStr "deadline exceeded".toList then
    operation ++ "失败：网络超时，请稍后重试".toList
  else if stringsContains errorStr "connection refused".toList then
    operation ++ "失败：无法连接到B站服务器，请检查网络连接".toList
  else if stringsContains errorStr "no such host".toList || stringsContains errorStr "dns".toList then
    operation ++ "失败：网络域名解析失败，请检查网络设置".toList
  else if stringsContains errorStr "no such file".toList || stringsContains errorStr "file not found".toList then
    operation ++ "失败：找不到视频文件，请确认文件已正确下载".toList
  else if stringsContains errorStr "permission denied".toList then
    operation ++ "失败：文件访问权限不足".toList
  else if stringsContains errorStr "file too large".toList then
    operation ++ "失败：文件过大，超出B站上传限制".toList
  else if stringsContains errorStr "401".toList || stringsContains errorStr "unauthorized".toList then
    operation ++ "失败：登录状态已过期，请重新登录".toList
  else if stringsContains errorStr "403".toList || stringsContains errorStr "forbidden".toList then
    operation ++ "失败：账号权限不足或被限制".toList
  else if stringsContains errorStr "429".toList || stringsContains errorStr "rate limit".toList then
    operation ++ "失败：操作频率过快，请稍后再试".toList
  else if stringsContains errorStr "500".toList || stringsContains errorStr "internal server error".toList then
    operation ++ "失败：B站服务器临时异常，请稍后重试".toList
  else if stringsContains errorStr "upload chunks".toList then
    operation ++ "失败：视频分片上传中断，可能是网络不稳定导致，请重试".toList
  else if stringsContains errorStr "failed to".toList then
    operation ++ "失败：操作执行失败，请稍后重试".toList
  else
    operation ++ "失败：发生未知错误，请重试或联系技术支持".toList

/-! ## The metadata synthesizer (`buildStudioInfo`) -/

/-- Embedding of `truncateTitle`. The slice `runes[:maxLen-3]` panics when
`maxLen - 3` is negative. -/
def truncateTitle (title : Str) (maxLen : Int) : Option Str :=
  if (title.length : Int) ≤ maxLen then some title
  else if maxLen - 3 < 0 then none
  else some (title.take (maxLen - 3).toNat ++ "...".toList)

/-- Embedding of the closure `cleanTitle` of `buildStudioInfo`. -/
def cleanTitle (title : Str) : Str :=
  let cleaned := regexpReplaceAll hashtagMatch [] 0 title
  let cleaned := stringsTrimSpace cleaned
  regexpReplaceAll spacesMatch " ".toList 0 cleaned

/-- The title chosen in the default branch: the cleaned source title, else
the AI title, else the initial value. -/
def defaultTitle (title : Str) (savedVideo : SavedVideo) : Str :=
  if savedVideo.Title ≠ [] then cleanTitle savedVideo.Title
  else if savedVideo.GeneratedTitle ≠ [] then savedVideo.GeneratedTitle
  else title

/-- Title selection of `buildStudioInfo`, by configuration; `title` is the
initial value, the content identifier. -/
def selectTitle (title : Str) (biliConfig : Option BilibiliConfig) (savedVideo : SavedVideo) : Str :=
  match biliConfig with
  | none => defaultTitle title savedVideo
  | some cfg =>
    if cfg.CustomTitleTemplate ≠ [] then
      let title := cfg.CustomTitleTemplate
      let cleanedOriginalTitle := cleanTitle savedVideo.Title
      let title := stringsReplaceAll title "{original_title}".toList cleanedOriginalTitle
      stringsReplaceAll title "{ai_title}".toList savedVideo.GeneratedTitle
    else if !cfg.UseOriginalTitle then
      if savedVideo.GeneratedTitle ≠ [] then savedVideo.GeneratedTitle
      else if savedVideo.Title ≠ [] then cleanTitle savedVideo.Title
      else title
    else defaultTitle title savedVideo

/-- The constant `maxTitleLength`. -/
def maxTitleLength : Nat := 80

/-- The title length guard inside the record branch: the first
`maxTitleLength` code points of an over-long title. -/
def limitTitle (title : Str) : Str :=
  if title.length > maxTitleLength then title.take maxTitleLength else title

/-- The list `invalidDescriptions`. -/
def invalidDescriptions : List Str :=
  ["YouTube".toList, "自动上传的视频".toList, "Uploaded by".toList, "Auto-generated".toList]

/-- Embedding of the closure `isValidDescription`; `len(desc)` is the byte
length. -/
def isValidDescription (desc : Str) : Bool :=
  if desc = [] then false
  else !(invalidDescriptions.any fun invalid => stringsContains desc invalid && decide (utf8Len desc < 50))

/-- The separator between the AI description and the source description. -/
def descSeparator : Str :=
  "\n\n━━━━━━━━━━━━━━━━━━━━━━━━━━━━━━━━━━━━━━━━\n📄 原视频简介：\n".toList

/-- The description chosen in the default branch. -/
def defaultDesc (savedVideo : SavedVideo) : Str :=
  let aiIntro := if savedVideo.GeneratedDesc ≠ [] then savedVideo.GeneratedDesc else []
  let originalDesc := if isValidDescription savedVideo.Description then savedVideo.Description else []
  if aiIntro ≠ [] ∧ originalDesc ≠ [] then aiIntro ++ descSeparator ++ originalDesc
  else if aiIntro ≠ [] then aiIntro
  else if originalDesc ≠ [] then originalDesc
  else []

/-- Description selection of `buildStudioInfo`, by configuration. -/
def selectDesc (biliConfig : Option BilibiliConfig) (savedVideo : SavedVideo) : Str :=
  match biliConfig with
  | none => defaultDesc savedVideo
  | some cfg =>
    if cfg.CustomDescTemplate ≠ [] then
      let desc := cfg.CustomDescTemplate
      let desc := stringsReplaceAll desc "{original_desc}".toList savedVideo.Description
      stringsReplaceAll desc "{ai_desc}".toList savedVideo.GeneratedDesc
    else if cfg.UseOriginalDesc then
      if isValidDescription savedVideo.Description then savedVideo.Description
      else if savedVideo.GeneratedDesc ≠ [] then savedVideo.GeneratedDesc
      else []
    else defaultDesc savedVideo

/-- The constant `maxDescLength`. -/
def maxDescLength : Nat := 2000

/-- The attribution suffix `linkSuffix` for a source URL. -/
def linkSuffix (url : Str) : Str :=
  if url ≠ [] then
    "\n\n━━━━━━━━━━━━━━━━━━━━━━━━━━━━━━━━━━━━━━━━\n📺 原视频链接：".toList ++ url ++
      "\n🔄 本视频为转载内容，仅供学习交流使用".toList
  else []

/-- The value of `maxAllowedDescLength` for a suffix of the given length. -/
def maxAllowedDescLength (linkSuffixLength : Nat) : Int :=
  let m : Int := (maxDescLength : Int) - linkSuffixLength - 20
  if m < 0 then 0 else m

/-- The description after the pre-truncation of the body, before the suffix
is appended. -/
def truncateDesc (desc : Str) (url : Str) : Str :=
  let allowed := maxAllowedDescLength (linkSuffix url).length
  if (desc.length : Int) > allowed then
    if allowed > 3 then desc.take allowed.toNat ++ "...".toList else []
  else desc

/-- The description with the suffix appended, before the final length
check. -/
def appendLink (desc : Str) (url : Str) : Str :=
  let desc := truncateDesc desc url
  if linkSuffix url ≠ [] then desc ++ linkSuffix url else desc

/-- Suffix handling of `buildStudioInfo`: pre-truncation, suffix, and the
final cut at `maxDescLength`. -/
def finalizeDesc (desc : Str) (url : Str) : Str :=
  let desc := appendLink desc url
  if desc.length > maxDescLength then desc.take maxDescLength else desc

/-- The pointer `savedVideo` once the lookup and the backfill are done. A
failed lookup leaves it nil and is reported as the error; a successful
backfill replaces it by the result of the second lookup, nil included. -/
def loadRecord (w : Collaborators) : Except Str (Option SavedVideo) :=
  match w.getVideo with
  | .error err => .error err
  | .ok savedVideo =>
    if savedVideo.Title = [] then
      match w.backfill with
      | .ok refetched => .ok refetched
      | .error _ => .ok (some savedVideo)
    else .ok (some savedVideo)

/-- The tags of `buildStudioInfo` for a loaded record; `tags` is the default. -/
def selectTags (tags : Str) (savedVideo : SavedVideo) : Str :=
  if savedVideo.GeneratedTags ≠ [] then savedVideo.GeneratedTags else tags

/-- The cover step of `buildStudioInfo`: the URL of the uploaded cover, empty
when no cover path is in the context or a call fails. -/
def uploadCoverIfPresent (w : Collaborators) (context : Context) : Str :=
  match context "cover_image_path".toList with
  | some (.str coverImagePath) =>
    if coverImagePath ≠ [] then
      match w.coverLoginLoad with
      | .ok _ =>
        match w.uploadCover coverImagePath with
        | .ok uploadedCoverURL => uploadedCoverURL
        | .error _ => []
      | .error _ => []
    else []
  | _ => []

/-- The `Source` field: the configured source, or for a repost without one
the record's URL, or a URL built from the content identifier when the record
pointer is nil. -/
def selectSource (t : UploadToBilibili) (copyright : Int) (source : Str)
    (savedVideo : Option SavedVideo) : Str :=
  if copyright = 2 ∧ source = [] then
    match savedVideo with
    | some sv => sv.URL
    | none => "https://www.youtube.com/watch?v=".toList ++ t.VideoID
  else source

/-- Assembly of the `Studio` value from the synthesized title, description
and tags (the part of `buildStudioInfo` after the record branch). The second
component is the handle `video` with its `Title` overwritten. -/
def assembleStudio (t : UploadToBilibili) (w : Collaborators) (video : Video) (context : Context)
    (title desc tags : Str) (savedVideo : Option SavedVideo) : Option (Studio × Video) :=
  let coverURL := uploadCoverIfPresent w context
  let hasZhSubtitle := w.zhSrtExists
  let video := { video with Title := title }
  let cfg := t.BilibiliConfig
  let copyright : Int := match cfg with
    | some c => if c.Copyright > 0 then c.Copyright else 1
    | none => 1
  let noReprint : Int := match cfg with
    | some c => c.NoReprint
    | none => 1
  let source : Str := match cfg with
    | some c => c.Source
    | none => []
  let tid : Int := match cfg with
    | some c => if c.Tid > 0 then c.Tid else 122
    | none => 122
  let dynamic : Str := match cfg with
    | some c => if c.Dynamic ≠ [] then c.Dynamic else "发布了新视频！".toList
    | none => "发布了新视频！".toList
  let openElec : Int := match cfg with
    | some c => c.OpenElec
    | none => 0
  let source := selectSource t copyright source savedVideo
  match truncateTitle title 80 with
  | none => none
  | some studioTitle =>
    some ({ Copyright := copyright, Title := studioTitle, Desc := desc, Tag := tags, Tid := tid,
            Cover := coverURL, Dynamic := dynamic, OpenSubtitle := hasZhSubtitle,
            Interactive := 0, Dolby := 0, LosslessMusic := 0, NoReprint := noReprint,
            OpenElec := openElec, Videos := [video], Source := source }, video)

/-- Embedding of `buildStudioInfo`. The result is the submission spec and the
handle `video` as the function leaves it; `none` is the nil dereference of
`savedVideo` after a backfill whose second lookup returned nil. -/
def buildStudioInfo (t : UploadToBilibili) (w : Collaborators) (video : Video)
    (context : Context) : Option (Studio × Video) :=
  let title := t.VideoID
  let desc := "自动上传的视频".toList
  let tags := "视频".toList
  match loadRecord w with
  | .error _ => assembleStudio t w video context title desc tags none
  | .ok none => none
  | .ok (some savedVideo) =>
    let title := limitTitle (selectTitle title t.BilibiliConfig savedVideo)
    let desc := selectDesc t.BilibiliConfig savedVideo
    let tags := selectTags tags savedVideo
    let desc := finalizeDesc desc savedVideo.URL
    assembleStudio t w video context title desc tags (some savedVideo)

/-! ## The orchestrator (`Execute`) -/

/-- The list `videoExtensions`. -/
def videoExtensions : List Str :=
  [".mp4".toList, ".flv".toList, ".mkv".toList, ".webm".toList, ".avi".toList, ".mov".toList]

/-- Embedding of `findVideoFiles`. -/
def findVideoFiles (t : UploadToBilibili) (w : Collaborators) : List Str :=
  match w.readDir with
  | .error _ => []
  | .ok files =>
    files.filterMap fun file =>
      if file.IsDir then none
      else
        let ext := stringsToLower (filepathExt file.Name)
        if videoExtensions.any (fun videoExt => ext = videoExt) then
          some (w.filepathJoin t.CurrentDir file.Name)
        else none

/-- What a run of `Execute` leaves behind: its return value, the run context,
and the arguments of the calls it made to the upload client and to
`UpdateVideo`. -/
structure Outcome where
  ok : Bool
  context : Context
  uploaded : Option Str
  submitted : Option Studio
  updated : Option SavedVideo

/-- Extraction of the platform identifiers from the result's data into the
record and the context. -/
def extractIds (data : Payload) (savedVideo : SavedVideo) (context : Context) :
    SavedVideo × Context :=
  match data with
  | .object dataMap =>
    let step1 : SavedVideo × Context :=
      match dataMap.lookup "bvid".toList with
      | some (.str bvidStr) =>
        ({ savedVideo with BiliBVID := bvidStr }, context.set "bili_bvid".toList (.str bvidStr))
      | _ => (savedVideo, context)
    match dataMap.lookup "aid".toList with
    | some (.float64 aid) =>
      ({ step1.1 with BiliAID := aid }, step1.2.set "bili_aid".toList (.int64 aid))
    | _ => step1
  | _ => (savedVideo, context)

/-- Embedding of `UploadToBilibili.Execute`; `none` is a panic. -/
def Execute (t : UploadToBilibili) (w : Collaborators) (context : Context) : Option Outcome :=
  if !w.loginIsValid then
    some ⟨false, context.set "error".toList (.str "未登录 Bilibili".toList), none, none, none⟩
  else
    match w.loginLoad with
    | .error err =>
      some ⟨false, context.set "error".toList (.str ("加载登录信息失败: ".toList ++ err)), none, none, none⟩
    | .ok _ =>
      match findVideoFiles t w with
      | [] =>
        let errMsg := "未找到视频文件".toList
        some ⟨false, context.set "error".toList (.str errMsg), none, none, none⟩
      | videoPath :: _ =>
        match w.uploadVideo videoPath with
        | .error err =>
          let userFriendlyError := getUserFriendlyError err "上传视频".toList
          some ⟨false, context.set "error".toList (.str userFriendlyError), some videoPath, none, none⟩
        | .ok video =>
          match buildStudioInfo t w video context with
          | none => none
          | some (studio, video) =>
            match w.submitVideo studio with
            | .error err =>
              let userFriendlyError := getUserFriendlyError err "提交视频".toList
              some ⟨false, context.set "error".toList (.str userFriendlyError), some videoPath,
                some studio, none⟩
            | .ok result =>
              if result.Code ≠ 0 then
                let errMsg := "提交失败: code=".toList ++ fmtInt result.Code ++ ", message=".toList ++
                  result.Message
                some ⟨false, context.set "error".toList (.str errMsg), some videoPath, some studio, none⟩
              else
                let context := context.set "bili_video".toList (.video video)
                let context := context.set "bili_result".toList (.result result)
                match w.getVideoAfter with
                | .error _ => some ⟨true, context, some videoPath, some studio, none⟩
                | .ok savedVideo =>
                  let extracted := extractIds result.Data savedVideo context
                  match w.updateVideo extracted.1 with
                  | .error _ => some ⟨true, extracted.2, some videoPath, some studio, some extracted.1⟩
                  | .ok _ => some ⟨true, extracted.2, some videoPath, some studio, some extracted.1⟩

/-! ## The AI response parser (`parseMetadataJSON`) -/

/-- Model of `strings.TrimPrefix(s, p)`. -/
def stringsTrimPrefix (s p : Str) : Str :=
  if stringsHasPrefix s p then s.drop p.length else s

/-- Model of `strings.HasSuffix(s, p)`. -/
def stringsHasSuffix (s p : Str) : Bool :=
  stringsHasPrefix s.reverse p.reverse

/-- Model of `strings.TrimSuffix(s, p)`. -/
def stringsTrimSuffix (s p : Str) : Str :=
  if stringsHasSuffix s p then s.take (s.length - p.length) else s

/-- Modelled from the spec: the type `VideoMetadata`, declared outside the
given sources; a JSON object with `title`, `description` and `tags` (an array
of short strings). -/
structure VideoMetadata where
  Title : Str
  Description : Str
  Tags : List Str
deriving DecidableEq

/-- The text `parseMetadataJSON` hands to `json.Unmarshal`: the content
without its surrounding blanks and code fence. -/
def stripCodeFence (content : Str) : Str :=
  let content := stringsTrimSpace content
  let content :=
    if stringsHasPrefix content "```json".toList then
      stringsTrimSuffix (stringsTrimPrefix content "```json".toList) "```".toList
    else if stringsHasPrefix content "```".toList then
      stringsTrimSuffix (stringsTrimPrefix content "```".toList) "```".toList
    else content
  stringsTrimSpace content

/-- Embedding of `parseMetadataJSON`; `jsonUnmarshal` is the decoder
`json.Unmarshal` into a `VideoMetadata`, with a missing field left at its
zero value. -/
def parseMetadataJSON (jsonUnmarshal : Str → Except Str VideoMetadata) (content : Str) :
    Except Str VideoMetadata :=
  let content := stripCodeFence content
  match jsonUnmarshal content with
  | .error err => .error ("解析元数据JSON失败: ".toList ++ err ++ ", 内容: ".toList ++ content)
  | .ok metadata =>
    if metadata.Title = [] then .error "生成的标题为空".toList
    else .ok metadata

/-! ## The classifier as the specification words it

A priority-ordered list of rules, each a set of markers and a message; the
first rule with a marker that is a substring of the error text decides. -/

/-- The rule list of the specification: markers, then the message. -/
def classifierRules : List (List Str × Str) :=
  [(["broken pipe".toList, "connection reset".toList], "网络连接中断，请检查网络状态后重试".toList),
   (["timeout".toList, "deadline exceeded".toList], "网络超时，请稍后重试".toList),
   (["connection refused".toList], "无法连接到B站服务器，请检查网络连接".toList),
   (["no such host".toList, "dns".toList], "网络域名解析失败，请检查网络设置".toList),
   (["no such file".toList, "file not found".toList], "找不到视频文件，请确认文件已正确下载".toList),
   (["permission denied".toList], "文件访问权限不足".toList),
   (["file too large".toList], "文件过大，超出B站上传限制".toList),
   (["401".toList, "unauthorized".toList], "登录状态已过期，请重新登录".toList),
   (["403".toList, "forbidden".toList], "账号权限不足或被限制".toList),
   (["429".toList, "rate limit".toList], "操作频率过快，请稍后再试".toList),
   (["500".toList, "internal server error".toList], "B站服务器临时异常，请稍后重试".toList),
   (["upload chunks".toList], "视频分片上传中断，可能是网络不稳定导致，请重试".toList),
   (["failed to".toList], "操作执行失败，请稍后重试".toList)]

/-- The message of the category `unknown`. -/
def unknownMessage : Str := "发生未知错误，请重试或联系技术支持".toList

/-- The reference classifier, first match wins: the message of the first rule
one of whose markers is a substring of the error text, the unknown message
when there is none, after the operation and the word for failure. -/
def firstMatchClassifier (errorStr operation : Str) : Str :=
  let firstRule := classifierRules.find? fun rule => rule.1.any fun marker => decide (marker <:+: errorStr)
  operation ++ "失败：".toList ++ (firstRule.map Prod.snd).getD unknownMessage

/-- Every marker of the classifier, in rule order. -/
def classifierMarkers : List Str := (classifierRules.map Prod.fst).flatten

/-! ## The title template as the specification words it

One pass over the template: each occurrence of a placeholder in the template
is replaced, and the text put in its place is not read again. -/

/-- The reference substitution of both placeholders in one pass; `skip`
counts the code points of the current placeholder still to drop. -/
def substituteTemplate (originalTitle aiTitle : Str) : Nat → Str → Str
  | _, [] => []
  | skip + 1, _ :: cs => substituteTemplate originalTitle aiTitle skip cs
  | 0, c :: cs =>
    if stringsHasPrefix (c :: cs) "{original_title}".toList then
      originalTitle ++ substituteTemplate originalTitle aiTitle 15 cs
    else if stringsHasPrefix (c :: cs) "{ai_title}".toList then
      aiTitle ++ substituteTemplate originalTitle aiTitle 9 cs
    else c :: substituteTemplate originalTitle aiTitle 0 cs

/-! ## Sample inputs -/

deriving instance DecidableEq for Except

/-- A handler for the content identifier `dQw4w9WgXcQ`, without configuration. -/
def sampleHandler : UploadToBilibili :=
  { VideoID := "dQw4w9WgXcQ".toList, CurrentDir := "/data/dQw4w9WgXcQ".toList, BilibiliConfig := none }

/-- A stored record with a hashtagged title and a source URL. -/
def sampleRecord : SavedVideo :=
  { VideoID := "dQw4w9WgXcQ".toList, URL := "https://www.youtube.com/watch?v=dQw4w9WgXcQ".toList,
    Title := "Amazing Trip #travel #fun".toList, Description := "Two weeks on the road.".toList,
    GeneratedTitle := "两周公路旅行".toList, GeneratedDesc := "一次两周的公路旅行记录".toList,
    GeneratedTags := "旅行,公路".toList, BiliBVID := [], BiliAID := 0 }

/-- Collaborators that all succeed: the lookup returns `savedVideo`, the
working directory holds one video file, the submission is answered by
`result`. -/
def sampleCollaborators (savedVideo : SavedVideo) (result : SubmitResult) : Collaborators :=
  { loginIsValid := true, loginLoad := .ok (),
    readDir := .ok [⟨"notes".toList, true⟩, ⟨"video.MP4".toList, false⟩],
    filepathJoin := fun dir name => dir ++ '/' :: name,
    uploadVideo := fun path => .ok ⟨path, []⟩,
    getVideo := .ok savedVideo, backfill := .error "未找到 yt-dlp".toList,
    coverLoginLoad := .ok (), uploadCover := fun _ => .error "no cover".toList,
    zhSrtExists := false, submitVideo := fun _ => .ok result,
    getVideoAfter := .ok savedVideo, updateVideo := fun _ => .ok () }

/-- The empty run context. -/
def emptyContext : Context := fun _ => none

/-- The sample record with a source URL of 1930 code points, whose
attribution suffix has 2001. -/
def longUrlRecord : SavedVideo :=
  { sampleRecord with URL := List.replicate 1930 'a' }

/-- A submission result that accepts the submission and carries both
platform identifiers. -/
def acceptedResult : SubmitResult :=
  { Code := 0, Message := "0".toList,
    Data := .object [("aid".toList, .float64 170001), ("bvid".toList, .str "BV17x411w7KC".toList)] }

/-- A submission result that rejects the submission with a non-zero code. -/
def rejectedResult : SubmitResult := { Code := -400, Message := "请求错误".toList, Data := .null }

/-- The sample collaborators without a valid stored credential. -/
def loggedOutCollaborators : Collaborators :=
  { sampleCollaborators sampleRecord acceptedResult with loginIsValid := false }

/-- The sample record with a source title of 81 code points and no hashtag. -/
def longTitleRecord : SavedVideo :=
  { sampleRecord with Title := List.replicate 81 'a' }

/-- The sample record with a source URL of 1909 code points: its suffix has
1980 code points and leaves an allowed body length of 0. -/
def tightUrlRecord : SavedVideo :=
  { sampleRecord with URL := List.replicate 1909 'a' }

/-- A description of 20 code points and 60 bytes that contains the
blacklisted default description. -/
def chineseBoilerplate : Str := "自动上传的视频，欢迎观看并点赞关注支持！".toList

/-- The sample record with a source title made of one hashtag. -/
def shortsRecord : SavedVideo :=
  { sampleRecord with Title := "#shorts".toList }

/-- A configuration without templates that prefers the source title and the
source description. -/
def preferSourceConfig : BilibiliConfig :=
  { CustomTitleTemplate := [], UseOriginalTitle := true, CustomDescTemplate := [],
    UseOriginalDesc := true, Copyright := 2, NoReprint := 0, Source := [], Tid := 0,
    Dynamic := [], OpenElec := 0, SelectionReserve := 0, UpSelectionReply := 0,
    UpCloseReply := 0, UpCloseReward := 0 }

/-- A decoder standing for `json.Unmarshal` that accepts the text `{}` alone
and decodes it to the metadata with every field at its zero value. -/
def emptyObjectDecoder (content : Str) : Except Str VideoMetadata :=
  if content = "{}".toList then .ok { Title := [], Description := [], Tags := [] }
  else .error "invalid character".toList

/-- A configuration whose title template is the source title placeholder
alone. -/
def echoTemplateConfig : BilibiliConfig :=
  { preferSourceConfig with CustomTitleTemplate := "{original_title}".toList }

/-- A configuration with the title template of the specification's example. -/
def reuploadTemplateConfig : BilibiliConfig :=
  { preferSourceConfig with CustomTitleTemplate := "[Re-upload] {original_title}".toList }

/-- The sample record with a source title that holds the text of the AI
title placeholder. -/
def placeholderRecord : SavedVideo :=
  { sampleRecord with Title := "Try {ai_title} now".toList }

/-- The sample record with the source title of the specification's example. -/
def catsRecord : SavedVideo :=
  { sampleRecord with Title := "Cats".toList }

/-- A JSON object text with a title. -/
def titleObject : Str := "\x7b\"title\":\"a\"\x7d".toList

/-- A decoder standing for `json.Unmarshal` that accepts `titleObject` alone. -/
def titleDecoder (content : Str) : Except Str VideoMetadata :=
  if content = titleObject then .ok { Title := "a".toList, Description := [], Tags := [] }
  else .error "invalid character".toList

/-- The sample collaborators over a working directory that lists, in this
order, a directory, a text file, two video files and a directory with a video
extension. -/
def listingCollaborators : Collaborators :=
  { sampleCollaborators sampleRecord acceptedResult with
    readDir := .ok [⟨"notes".toList, true⟩, ⟨"readme.txt".toList, false⟩,
      ⟨"b.MKV".toList, false⟩, ⟨"a.mp4".toList, false⟩, ⟨"clips.mp4".toList, true⟩] }

/-- The sample collaborators over a working directory that cannot be read. -/
def unreadableCollaborators : Collaborators :=
  { sampleCollaborators sampleRecord acceptedResult with
    readDir := .error "permission denied".toList }

/-- The sample collaborators whose `UploadVideo` fails with a refused
connection. -/
def uploadRefusedCollaborators : Collaborators :=
  { sampleCollaborators sampleRecord acceptedResult with
    uploadVideo := fun _ => .error "dial tcp: connection refused".toList }

/-- The sample collaborators whose `SubmitVideo` fails with an exceeded
deadline. -/
def submitTimeoutCollaborators : Collaborators :=
  { sampleCollaborators sampleRecord acceptedResult with
    submitVideo := fun _ => .error "context deadline exceeded".toList }

/-! ## Standard library lemmas -/

theorem stringsHasPrefix_iff (s p : Str) : stringsHasPrefix s p = true ↔ p <+: s := by
  induction s generalizing p with
  | nil => cases p <;> simp [stringsHasPrefix]
  | cons c cs ih =>
    cases p with
    | nil => simp [stringsHasPrefix]
    | cons q qs =>
      simp only [stringsHasPrefix, Bool.and_eq_true, beq_iff_eq, ih, List.cons_prefix_cons]
      constructor
      · rintro ⟨h1, h2⟩; exact ⟨h1.symm, h2⟩
      · rintro ⟨h1, h2⟩; exact ⟨h1.symm, h2⟩

theorem stringsContains_iff (s sub : Str) : stringsContains s sub = true ↔ sub <:+: s := by
  induction s with
  | nil =>
    simp only [stringsContains, stringsHasPrefix_iff]
    constructor
    · intro h; exact h.isInfix
    · intro h; rw [List.infix_nil] at h; subst h; exact List.prefix_refl _
  | cons c cs ih =>
    simp only [stringsContains, Bool.or_eq_true, stringsHasPrefix_iff, ih, List.infix_cons_iff]

/-! ## Lemmas on the synthesizer -/

theorem truncateTitle_80 (title : Str) :
    truncateTitle title 80 =
      some (if title.length ≤ 80 then title else title.take 77 ++ "...".toList) := by
  unfold truncateTitle
  by_cases h : title.length ≤ 80
  · have h2 : (title.length : Int) ≤ 80 := by exact_mod_cast h
    simp [h, h2]
  · have h2 : ¬ (title.length : Int) ≤ 80 := by
      intro h3; apply h; exact_mod_cast h3
    simp [h, h2]

theorem truncateTitle_80_length (title : Str) :
    (if title.length ≤ 80 then title else title.take 77 ++ "...".toList).length ≤ 80 := by
  split
  · assumption
  · rw [List.length_append, List.length_take]
    have h3 : "...".toList.length = 3 := rfl
    omega

theorem limitTitle_length (title : Str) : (limitTitle title).length ≤ 80 := by
  unfold limitTitle maxTitleLength
  split
  · simp [List.length_take]
  · omega

theorem finalizeDesc_length (desc url : Str) : (finalizeDesc desc url).length ≤ 2000 := by
  unfold finalizeDesc maxDescLength
  simp only
  split
  · simp [List.length_take]
  · omega


theorem assembleStudio_spec (t : UploadToBilibili) (w : Collaborators) (video : Video)
    (context : Context) (title desc tags : Str) (savedVideo : Option SavedVideo) :
    ∃ st : Studio, assembleStudio t w video context title desc tags savedVideo =
        some (st, { video with Title := title }) ∧
      st.Title = (if title.length ≤ 80 then title else title.take 77 ++ "...".toList) ∧
      st.Desc = desc ∧ st.Tag = tags ∧ st.Videos = [{ video with Title := title }] := by
  unfold assembleStudio
  simp only [truncateTitle_80]
  exact ⟨_, rfl, rfl, rfl, rfl, rfl⟩

theorem buildStudioInfo_noRecord (t : UploadToBilibili) (w : Collaborators) (video : Video)
    (context : Context) (err : Str) (h : loadRecord w = .error err) :
    ∃ st : Studio, buildStudioInfo t w video context = some (st, { video with Title := t.VideoID }) ∧
      st.Title = (if t.VideoID.length ≤ 80 then t.VideoID else t.VideoID.take 77 ++ "...".toList) ∧
      st.Desc = "自动上传的视频".toList ∧ st.Tag = "视频".toList := by
  unfold buildStudioInfo
  simp only [h]
  obtain ⟨st, h1, h2, h3, h4, _⟩ :=
    assembleStudio_spec t w video context t.VideoID "自动上传的视频".toList "视频".toList none
  exact ⟨st, h1, h2, h3, h4⟩

theorem buildStudioInfo_record (t : UploadToBilibili) (w : Collaborators) (video : Video)
    (context : Context) (savedVideo : SavedVideo) (h : loadRecord w = .ok (some savedVideo)) :
    ∃ st : Studio, buildStudioInfo t w video context =
        some (st, { video with Title := limitTitle (selectTitle t.VideoID t.BilibiliConfig savedVideo) }) ∧
      st.Title = limitTitle (selectTitle t.VideoID t.BilibiliConfig savedVideo) ∧
      st.Desc = finalizeDesc (selectDesc t.BilibiliConfig savedVideo) savedVideo.URL ∧
      st.Tag = selectTags "视频".toList savedVideo := by
  unfold buildStudioInfo
  simp only [h]
  obtain ⟨st, h1, h2, h3, h4, _⟩ :=
    assembleStudio_spec t w video context (limitTitle (selectTitle t.VideoID t.BilibiliConfig savedVideo))
      (finalizeDesc (selectDesc t.BilibiliConfig savedVideo) savedVideo.URL)
      (selectTags "视频".toList savedVideo) (some savedVideo)
  refine ⟨st, h1, ?_, h3, h4⟩
  rw [h2, if_pos (limitTitle_length _)]

theorem buildStudioInfo_nil (t : UploadToBilibili) (w : Collaborators) (video : Video)
    (context : Context) (h : loadRecord w = .ok none) :
    buildStudioInfo t w video context = none := by
  unfold buildStudioInfo
  simp only [h]

theorem linkSuffix_length (url : Str) (h : url ≠ []) : (linkSuffix url).length = url.length + 71 := by
  unfold linkSuffix
  rw [if_pos h, List.length_append, List.length_append]
  have h1 : "\n\n━━━━━━━━━━━━━━━━━━━━━━━━━━━━━━━━━━━━━━━━\n📺 原视频链接：".toList.length = 51 := by decide
  have h2 : "\n🔄 本视频为转载内容，仅供学习交流使用".toList.length = 20 := by decide
  omega

theorem linkSuffix_nil : linkSuffix [] = [] := by
  simp [linkSuffix]

theorem linkSuffix_ne_nil (url : Str) (h : url ≠ []) : linkSuffix url ≠ [] := by
  intro h2
  have h3 := linkSuffix_length url h
  rw [h2] at h3
  simp at h3

theorem truncateDesc_length (desc url : Str) (h : (linkSuffix url).length ≤ 2000) :
    (truncateDesc desc url).length + (linkSuffix url).length ≤ 2000 := by
  unfold truncateDesc maxAllowedDescLength maxDescLength
  simp only
  split_ifs
  all_goals simp only [List.length_append, List.length_take, List.length_nil] at *
  all_goals try (have h9 : "...".toList.length = 3 := rfl)
  all_goals omega

theorem appendLink_length (desc url : Str) (h : (linkSuffix url).length ≤ 2000) :
    (appendLink desc url).length ≤ 2000 := by
  have h1 := truncateDesc_length desc url h
  unfold appendLink
  simp only
  split
  · rw [List.length_append]; exact h1
  · omega

theorem finalizeDesc_eq_appendLink (desc url : Str) (h : (linkSuffix url).length ≤ 2000) :
    finalizeDesc desc url = appendLink desc url := by
  have h1 := appendLink_length desc url h
  unfold finalizeDesc maxDescLength
  simp only
  rw [if_neg (by omega)]

theorem appendLink_suffix (desc url : Str) : linkSuffix url <:+ appendLink desc url := by
  unfold appendLink
  simp only
  split
  · exact List.suffix_append _ _
  · rename_i h
    have h2 : linkSuffix url = [] := by simpa using h
    rw [h2]; exact List.nil_suffix

theorem buildStudioInfo_isSome (t : UploadToBilibili) (w : Collaborators) (video : Video)
    (context : Context) (h : loadRecord w ≠ .ok none) :
    (buildStudioInfo t w video context).isSome = true := by
  cases hl : loadRecord w with
  | error err =>
    obtain ⟨st, h1, _⟩ := buildStudioInfo_noRecord t w video context err hl
    simp [h1]
  | ok rec =>
    cases rec with
    | none => exact absurd hl h
    | some savedVideo =>
      obtain ⟨st, h1, _⟩ := buildStudioInfo_record t w video context savedVideo hl
      simp [h1]

/-! ## Lemmas on the classifier -/

theorem decide_infix_eq (s sub : Str) : decide (sub <:+: s) = stringsContains s sub := by
  rw [Bool.eq_iff_iff, decide_eq_true_iff, stringsContains_iff]

theorem find_first_eq_foldr {α β γ : Type} (p : α → Bool) (f : α → β) (g : β → γ) (d : β)
    (rules : List α) :
    g (((rules.find? p).map f).getD d) =
      rules.foldr (fun rule acc => if p rule = true then g (f rule) else acc) (g d) := by
  induction rules with
  | nil => rfl
  | cons r rs ih =>
    rw [List.find?_cons, List.foldr_cons]
    cases h : p r
    · simp only [Bool.false_eq_true, if_false]; exact ih
    · simp only [if_true]; rfl

theorem getUserFriendlyError_refines (errorStr operation : Str) :
    getUserFriendlyError errorStr operation = firstMatchClassifier errorStr operation := by
  refine Eq.trans ?_ (find_first_eq_foldr
    (fun rule : List Str × Str => rule.1.any fun marker => decide (marker <:+: errorStr))
    Prod.snd (fun msg => operation ++ "失败：".toList ++ msg) unknownMessage classifierRules).symm
  rw [getUserFriendlyError]
  repeat' refine if_congr ?_ ?_ ?_
  all_goals first
    | (simp only [List.any_cons, List.any_nil, Bool.or_false, decide_infix_eq]; done)
    | (simp only [List.append_assoc]; rfl)

theorem mem_classifierMarkers (m : Str) :
    m ∈ classifierMarkers ↔ ∃ rule ∈ classifierRules, m ∈ rule.1 := by
  unfold classifierMarkers
  rw [List.mem_flatten]
  constructor
  · rintro ⟨l, hl, hm⟩
    obtain ⟨rule, hrule, rfl⟩ := List.mem_map.mp hl
    exact ⟨rule, hrule, hm⟩
  · rintro ⟨rule, hrule, hm⟩
    exact ⟨rule.1, List.mem_map.mpr ⟨rule, hrule, rfl⟩, hm⟩

theorem classifierRules_message_ne : ∀ rule ∈ classifierRules, rule.2 ≠ unknownMessage := by
  decide
theorem getUserFriendlyError_ne_nil (errorStr operation : Str) :
    getUserFriendlyError errorStr operation ≠ [] := by
  rw [getUserFriendlyError_refines, firstMatchClassifier]
  intro h
  have h2 := congrArg List.length h
  simp only [List.length_append, List.length_nil] at h2
  have h3 : "失败：".toList.length = 3 := rfl
  omega

theorem classifier_message_getLast :
    ∀ msg ∈ unknownMessage :: classifierRules.map Prod.snd, msg ≠ [] ∧ msg.getLast? ∈
      [some '试', some '接', some '置', some '载', some '足', some '制', some '录', some '持'] := by
  decide

theorem getUserFriendlyError_getLast (errorStr operation : Str) :
    (getUserFriendlyError errorStr operation).getLast? ∈
      [some '试', some '接', some '置', some '载', some '足', some '制', some '录', some '持'] := by
  rw [getUserFriendlyError_refines, firstMatchClassifier]
  have hmem : ((classifierRules.find? fun rule => rule.1.any fun marker =>
      decide (marker <:+: errorStr)).map Prod.snd).getD unknownMessage ∈
      unknownMessage :: classifierRules.map Prod.snd := by
    cases hf : classifierRules.find? fun rule => rule.1.any fun marker =>
        decide (marker <:+: errorStr) with
    | none => exact List.mem_cons_self _ _
    | some rule =>
      exact List.mem_cons_of_mem _ (List.mem_map.mpr ⟨rule, List.mem_of_find?_eq_some hf, rfl⟩)
  obtain ⟨hne, hlast⟩ := classifier_message_getLast _ hmem
  rw [List.getLast?_append_of_ne_nil _ hne]
  exact hlast

/-! ## Lemmas on the orchestrator -/

theorem Execute_failure (t : UploadToBilibili) (w : Collaborators) (context : Context)
    (o : Outcome) (h : Execute t w context = some o) (hok : o.ok = false) :
    ∃ msg, o.context = context.set "error".toList (.str msg) ∧
      (msg = "未登录 Bilibili".toList ∨
       (∃ err, w.loginLoad = .error err ∧ msg = "加载登录信息失败: ".toList ++ err) ∨
       msg = "未找到视频文件".toList ∨
       (∃ path err, w.uploadVideo path = .error err ∧
          msg = getUserFriendlyError err "上传视频".toList) ∨
       (∃ studio err, w.submitVideo studio = .error err ∧
          msg = getUserFriendlyError err "提交视频".toList) ∨
       (∃ studio result, w.submitVideo studio = .ok result ∧ result.Code ≠ 0 ∧
          msg = "提交失败: code=".toList ++ fmtInt result.Code ++ ", message=".toList ++
            result.Message)) := by
  unfold Execute at h
  split at h
  · cases h
    exact ⟨_, rfl, Or.inl rfl⟩
  · split at h
    · rename_i err hload
      cases h
      exact ⟨_, rfl, Or.inr (Or.inl ⟨err, hload, rfl⟩)⟩
    · split at h
      · cases h
        exact ⟨_, rfl, Or.inr (Or.inr (Or.inl rfl))⟩
      · split at h
        · rename_i err hup
          cases h
          exact ⟨_, rfl, Or.inr (Or.inr (Or.inr (Or.inl ⟨_, err, hup, rfl⟩)))⟩
        · split at h
          · cases h
          · split at h
            · rename_i err hsub
              cases h
              exact ⟨_, rfl, Or.inr (Or.inr (Or.inr (Or.inr (Or.inl ⟨_, err, hsub, rfl⟩))))⟩
            · rename_i result hsub
              split at h
              · rename_i hcode
                cases h
                exact ⟨_, rfl, Or.inr (Or.inr (Or.inr (Or.inr (Or.inr ⟨_, result, hsub, hcode, rfl⟩))))⟩
              · split at h
                · cases h; cases hok
                · dsimp only at h
                  split at h <;> (cases h; cases hok)

theorem Execute_isSome (t : UploadToBilibili) (w : Collaborators) (context : Context)
    (h : loadRecord w ≠ .ok none) : (Execute t w context).isSome = true := by
  unfold Execute
  split
  · rfl
  · split
    · rfl
    · split
      · rfl
      · split
        · rfl
        · rename_i video _
          have hb := buildStudioInfo_isSome t w video context h
          split
          · rename_i hnone
            rw [hnone] at hb
            cases hb
          · split
            · rfl
            · split
              · rfl
              · split
                · rfl
                · dsimp only
                  split <;> rfl

theorem extractIds_error (data : Payload) (savedVideo : SavedVideo) (context : Context) :
    (extractIds data savedVideo context).2 "error".toList = context "error".toList := by
  unfold extractIds
  split
  · split <;> split <;> simp [Context.set]
  · rfl

/-! ## Lemmas on the description body -/

theorem maxAllowedDescLength_eq_max (n : Nat) :
    maxAllowedDescLength n = max 0 (2000 - (n : Int) - 20) := by
  unfold maxAllowedDescLength maxDescLength
  have h2000 : ((2000 : Nat) : Int) = 2000 := rfl
  simp only [h2000]
  split
  · rw [max_eq_left]; omega
  · rw [max_eq_right]; omega

theorem appendLink_truncated_cases (desc url : Str)
    (hlen : (desc.length : Int) > maxAllowedDescLength (linkSuffix url).length) :
    (maxAllowedDescLength (linkSuffix url).length > 3 →
      appendLink desc url =
        desc.take (maxAllowedDescLength (linkSuffix url).length).toNat ++ "...".toList ++
          linkSuffix url) ∧
    (maxAllowedDescLength (linkSuffix url).length ≤ 3 → appendLink desc url = linkSuffix url) := by
  constructor
  · intro h3
    unfold appendLink truncateDesc
    simp only
    rw [if_pos hlen, if_pos h3]
    split
    · rfl
    · rename_i hnil
      have h2 : linkSuffix url = [] := by simpa using hnil
      rw [h2, List.append_nil]
  · intro h3
    unfold appendLink truncateDesc
    simp only
    have h4 : ¬ maxAllowedDescLength (linkSuffix url).length > 3 := by omega
    rw [if_pos hlen, if_neg h4]
    split
    · rfl
    · rename_i hnil
      have h2 : linkSuffix url = [] := by simpa using hnil
      rw [h2]

theorem finalizeDesc_eq_take (desc url : Str) :
    finalizeDesc desc url = (appendLink desc url).take 2000 := by
  unfold finalizeDesc maxDescLength
  simp only
  split
  · rfl
  · rw [List.take_of_length_le (by omega)]

theorem isValidDescription_ne_nil (desc : Str) (h : isValidDescription desc = true) : desc ≠ [] := by
  intro hnil
  rw [hnil] at h
  exact absurd h (by decide)

theorem defaultDesc_cases (savedVideo : SavedVideo) :
    defaultDesc savedVideo =
      if savedVideo.GeneratedDesc ≠ [] ∧ isValidDescription savedVideo.Description = true then
        savedVideo.GeneratedDesc ++ descSeparator ++ savedVideo.Description
      else if savedVideo.GeneratedDesc ≠ [] then savedVideo.GeneratedDesc
      else if isValidDescription savedVideo.Description = true then savedVideo.Description
      else [] := by
  unfold defaultDesc
  by_cases hai : savedVideo.GeneratedDesc ≠ []
  · by_cases hv : isValidDescription savedVideo.Description = true
    · have hne := isValidDescription_ne_nil _ hv
      simp only [hai, hv, hne, ne_eq, not_false_eq_true, if_true, and_self]
    · simp only [hai, hv, ne_eq, not_false_eq_true, if_true, Bool.false_eq_true, if_false,
        not_true_eq_false, and_false]
  · have hai2 : savedVideo.GeneratedDesc = [] := by simpa using hai
    by_cases hv : isValidDescription savedVideo.Description = true
    · have hne := isValidDescription_ne_nil _ hv
      simp only [hai2, hv, hne, ne_eq, not_true_eq_false, if_false, false_and, if_true,
        not_false_eq_true]
    · simp only [hai2, hv, ne_eq, not_true_eq_false, if_false, false_and, Bool.false_eq_true]

theorem selectDesc_default_mode (biliConfig : Option BilibiliConfig) (savedVideo : SavedVideo)
    (hmode : biliConfig = none ∨
      ∃ cfg, biliConfig = some cfg ∧ cfg.CustomDescTemplate = [] ∧ cfg.UseOriginalDesc = false) :
    selectDesc biliConfig savedVideo = defaultDesc savedVideo := by
  rcases hmode with h | ⟨cfg, h, ht, hu⟩
  · rw [h]; rfl
  · rw [h]
    unfold selectDesc
    simp only [ht, hu, ne_eq, not_true_eq_false, if_false, Bool.false_eq_true]

/-! ## Lemmas on the AI response parser -/

theorem dropWhile_head_neg (p : Char → Bool) (l : Str)
    (h : ∀ c, l.head? = some c → p c = false) : l.dropWhile p = l := by
  cases l with
  | nil => rfl
  | cons c cs =>
    have hc : p c = false := h c rfl
    rw [List.dropWhile_cons, hc]
    rfl

theorem stringsTrimSpace_padded (a s b : Str) (ha : ∀ c ∈ a, unicodeIsSpace c = true)
    (hb : ∀ c ∈ b, unicodeIsSpace c = true)
    (hhead : ∀ c, s.head? = some c → unicodeIsSpace c = false)
    (hlast : ∀ c, s.getLast? = some c → unicodeIsSpace c = false) :
    stringsTrimSpace (a ++ s ++ b) = s := by
  unfold stringsTrimSpace
  rw [List.append_assoc, List.dropWhile_append_of_pos ha]
  cases s with
  | nil =>
    rw [List.nil_append]
    have h1 : b.dropWhile unicodeIsSpace = [] := List.dropWhile_eq_nil_iff.mpr hb
    rw [h1]
    rfl
  | cons c cs =>
    have h1 : ((c :: cs) ++ b).dropWhile unicodeIsSpace = (c :: cs) ++ b :=
      dropWhile_head_neg _ _ (fun x hx => hhead x (by simpa using hx))
    rw [h1, List.reverse_append,
      List.dropWhile_append_of_pos (fun x hx => hb x (List.mem_reverse.mp hx)),
      dropWhile_head_neg _ _ (fun x hx => hlast x (by rw [← List.head?_reverse]; exact hx)),
      List.reverse_reverse]

theorem stringsHasPrefix_append (p rest : Str) : stringsHasPrefix (p ++ rest) p = true :=
  (stringsHasPrefix_iff _ _).mpr (List.prefix_append p rest)

theorem stringsTrimPrefix_append (p rest : Str) : stringsTrimPrefix (p ++ rest) p = rest := by
  unfold stringsTrimPrefix
  rw [stringsHasPrefix_append, if_pos rfl, List.drop_left]

theorem stringsTrimSuffix_append (rest p : Str) : stringsTrimSuffix (rest ++ p) p = rest := by
  unfold stringsTrimSuffix stringsHasSuffix
  rw [List.reverse_append, stringsHasPrefix_append, if_pos rfl, List.length_append,
    Nat.add_sub_cancel, List.take_left]

theorem stripCodeFence_bare (j : Str) (hopen : j.head? = some '{')
    (hclose : j.getLast? = some '}') : stripCodeFence j = j := by
  have htrim : stringsTrimSpace j = j := by
    have h := stringsTrimSpace_padded [] j []
      (fun _ hc => absurd hc (List.not_mem_nil _)) (fun _ hc => absurd hc (List.not_mem_nil _))
      (fun c hc => by rw [hopen] at hc; cases hc; decide)
      (fun c hc => by rw [hclose] at hc; cases hc; decide)
    simpa using h
  unfold stripCodeFence
  simp only [htrim]
  cases j with
  | nil => cases hopen
  | cons c cs =>
    have hc : c = '{' := by simpa using hopen
    subst hc
    have h1 : stringsHasPrefix ('{' :: cs) "```json".toList = false := rfl
    have h2 : stringsHasPrefix ('{' :: cs) "```".toList = false := rfl
    rw [h1, h2]
    simp only [Bool.false_eq_true, if_false]
    exact htrim

theorem stripCodeFence_body (j : Str) (hopen : j.head? = some '{')
    (hclose : j.getLast? = some '}') : stringsTrimSpace ("\n".toList ++ j ++ "\n".toList) = j :=
  stringsTrimSpace_padded "\n".toList j "\n".toList (by decide) (by decide)
    (fun c hc => by rw [hopen] at hc; cases hc; decide)
    (fun c hc => by rw [hclose] at hc; cases hc; decide)

theorem stringsTrimSpace_fenced (opening j : Str) (hopening : opening.head? = some '`') :
    stringsTrimSpace (opening ++ j ++ "\n```".toList) = opening ++ j ++ "\n```".toList := by
  have h := stringsTrimSpace_padded [] (opening ++ j ++ "\n```".toList) []
    (fun _ hc => absurd hc (List.not_mem_nil _)) (fun _ hc => absurd hc (List.not_mem_nil _))
    (fun c hc => by
      cases opening with
      | nil => cases hopening
      | cons o os =>
        have ho : o = '`' := by simpa using hopening
        subst ho
        have hc2 : c = '`' := by simpa using hc.symm
        subst hc2
        decide)
    (fun c hc => by
      rw [List.getLast?_append_of_ne_nil _ (by decide)] at hc
      have hc2 : c = '`' := by
        have h3 : "\n```".toList.getLast? = some '`' := by decide
        rw [h3] at hc
        cases hc
        rfl
      subst hc2
      decide)
  simpa using h

/-! ## Lemmas on the title cleaning -/

theorem regexpReplaceAll_nil (matchLen : Str → Option Nat) (repl : Str) (skip : Nat) :
    regexpReplaceAll matchLen repl skip [] = [] := by
  cases skip <;> rfl

theorem regexpReplaceAll_skip (matchLen : Str → Option Nat) (repl : Str) (skip : Nat) (s : Str) :
    regexpReplaceAll matchLen repl skip s = regexpReplaceAll matchLen repl 0 (s.drop skip) := by
  induction skip generalizing s with
  | zero => rfl
  | succ k ih =>
    cases s with
    | nil => rw [regexpReplaceAll_nil, List.drop_nil, regexpReplaceAll_nil]
    | cons c cs =>
      rw [List.drop_succ_cons, ← ih cs]
      simp only [regexpReplaceAll]

theorem regexpReplaceAll_of_none (matchLen : Str → Option Nat) (repl : Str) (c : Char) (cs : Str)
    (h : matchLen (c :: cs) = none) :
    regexpReplaceAll matchLen repl 0 (c :: cs) = c :: regexpReplaceAll matchLen repl 0 cs := by
  rw [regexpReplaceAll, h]

theorem regexpReplaceAll_of_some (matchLen : Str → Option Nat) (repl : Str) (s : Str) (n : Nat)
    (hs : s ≠ []) (hn : 0 < n) (h : matchLen s = some n) :
    regexpReplaceAll matchLen repl 0 s = repl ++ regexpReplaceAll matchLen repl 0 (s.drop n) := by
  cases s with
  | nil => exact absurd rfl hs
  | cons c cs =>
    rw [regexpReplaceAll, h]
    simp only
    rw [regexpReplaceAll_skip]
    cases n with
    | zero => exact absurd hn (Nat.lt_irrefl 0)
    | succ k => rfl

theorem hashtagMatch_none_of_head (s : Str)
    (h : ∀ rest, s.dropWhile reSpace ≠ '#' :: rest) : hashtagMatch s = none := by
  unfold hashtagMatch
  split
  · rename_i rest heq
    exact absurd heq (h rest)
  · rfl

theorem hashtagMatch_no_hash (s : Str) (h : ∀ c ∈ s, c ≠ '#') : hashtagMatch s = none := by
  apply hashtagMatch_none_of_head
  intro rest heq
  have hmem : '#' ∈ s.dropWhile reSpace := by rw [heq]; exact List.mem_cons_self _ _
  exact h '#' ((List.dropWhile_sublist reSpace).subset hmem) rfl

theorem removeTags_no_hash (s : Str) (h : ∀ c ∈ s, c ≠ '#') :
    regexpReplaceAll hashtagMatch [] 0 s = s := by
  induction s with
  | nil => rfl
  | cons c cs ih =>
    rw [regexpReplaceAll_of_none _ _ _ _ (hashtagMatch_no_hash _ h),
      ih (fun x hx => h x (List.mem_cons_of_mem _ hx))]

theorem removeTags_pre (pre rest : Str) (hpre : ∀ c ∈ pre, c ≠ '#')
    (hend : ∀ c, pre.getLast? = some c → reSpace c = false) :
    regexpReplaceAll hashtagMatch [] 0 (pre ++ rest) =
      pre ++ regexpReplaceAll hashtagMatch [] 0 rest := by
  induction pre with
  | nil => rfl
  | cons c cs ih =>
    have hnone : hashtagMatch (c :: (cs ++ rest)) = none := by
      show hashtagMatch ((c :: cs) ++ rest) = none
      apply hashtagMatch_none_of_head
      intro tail heq
      have hne : (c :: cs).dropWhile reSpace ≠ [] := by
        intro hnil
        have hall := List.dropWhile_eq_nil_iff.mp hnil
        have hlast : (c :: cs).getLast? = some ((c :: cs).getLast (List.cons_ne_nil _ _)) :=
          List.getLast?_eq_getLast _ _
        have h1 := hend _ hlast
        have h2 := hall _ (List.getLast_mem (List.cons_ne_nil c cs))
        rw [h1] at h2
        exact absurd h2 (by decide)
      have happ : ((c :: cs) ++ rest).dropWhile reSpace = (c :: cs).dropWhile reSpace ++ rest := by
        rw [List.dropWhile_append]
        have hemp : ((c :: cs).dropWhile reSpace).isEmpty = false := by
          cases hd : (c :: cs).dropWhile reSpace with
          | nil => exact absurd hd hne
          | cons _ _ => rfl
        rw [hemp]
        rfl
      rw [happ] at heq
      cases hd : (c :: cs).dropWhile reSpace with
      | nil => exact absurd hd hne
      | cons d ds =>
        rw [hd] at heq
        have hdeq : d = '#' := by
          have h3 := congrArg List.head? heq
          simpa using h3
        have hmem : d ∈ (c :: cs).dropWhile reSpace := by rw [hd]; exact List.mem_cons_self _ _
        exact hpre d ((List.dropWhile_sublist reSpace).subset hmem) hdeq
    have hcs : ∀ x, cs.getLast? = some x → reSpace x = false := by
      intro x hx
      apply hend x
      cases cs with
      | nil => cases hx
      | cons d ds => rw [List.getLast?_cons_cons]; exact hx
    rw [List.cons_append, regexpReplaceAll_of_none _ _ _ _ hnone,
      ih (fun x hx => hpre x (List.mem_cons_of_mem _ hx)) hcs]
    rfl

theorem hashtagMatch_token (ws tag post : Str) (hws : ∀ c ∈ ws, reSpace c = true)
    (htag : tag ≠ []) (htagc : ∀ c ∈ tag, reSpace c = false ∧ c ≠ '#')
    (hpost : ∀ c, post.head? = some c → reSpace c = true ∨ c = '#') :
    hashtagMatch (ws ++ '#' :: (tag ++ post)) = some (ws.length + 1 + tag.length) := by
  have htake : (ws ++ '#' :: (tag ++ post)).takeWhile reSpace = ws := by
    rw [List.takeWhile_append_of_pos hws, List.takeWhile_cons_of_neg (by decide),
      List.append_nil]
  have hdrop : (ws ++ '#' :: (tag ++ post)).dropWhile reSpace = '#' :: (tag ++ post) := by
    rw [List.dropWhile_append_of_pos hws, List.dropWhile_cons_of_neg (by decide)]
  have hrun : (tag ++ post).takeWhile (fun c => !(reSpace c || decide (c = '#'))) = tag := by
    rw [List.takeWhile_append_of_pos]
    · cases post with
      | nil => simp
      | cons p ps =>
        have hp := hpost p rfl
        rw [List.takeWhile_cons_of_neg, List.append_nil]
        rcases hp with hp | hp
        · simp [hp]
        · simp [hp]
    · intro c hc
      obtain ⟨h1, h2⟩ := htagc c hc
      simp [h1, h2]
  unfold hashtagMatch
  simp only [htake, hdrop, hrun]
  have hlen : tag.length ≠ 0 := fun h => htag (List.length_eq_zero.mp h)
  rw [if_neg hlen]

theorem removeTags_token (pre ws tag post : Str) (hpre : ∀ c ∈ pre, c ≠ '#')
    (hend : ∀ c, pre.getLast? = some c → reSpace c = false)
    (hws : ∀ c ∈ ws, reSpace c = true) (htag : tag ≠ [])
    (htagc : ∀ c ∈ tag, reSpace c = false ∧ c ≠ '#')
    (hpost : ∀ c, post.head? = some c → reSpace c = true ∨ c = '#') :
    regexpReplaceAll hashtagMatch [] 0 (pre ++ (ws ++ '#' :: (tag ++ post))) =
      regexpReplaceAll hashtagMatch [] 0 (pre ++ post) := by
  rw [removeTags_pre pre _ hpre hend, removeTags_pre pre post hpre hend,
    regexpReplaceAll_of_some hashtagMatch [] _ _ (by simp) (by omega)
      (hashtagMatch_token ws tag post hws htag htagc hpost)]
  have hdrop : (ws ++ '#' :: (tag ++ post)).drop (ws.length + 1 + tag.length) = post := by
    have hsplit : ws ++ '#' :: (tag ++ post) = (ws ++ '#' :: tag) ++ post := by simp
    rw [hsplit]
    apply List.drop_left'
    simp
    omega
  rw [hdrop, List.nil_append]

/-! ## Lemmas on the asset lookup -/

theorem filterMap_cond {α β : Type} (cond : α → Bool) (g : α → β) (l : List α) :
    l.filterMap (fun x => if cond x = true then some (g x) else none) = (l.filter cond).map g := by
  induction l with
  | nil => rfl
  | cons x xs ih =>
    cases h : cond x
    · rw [List.filterMap_cons, List.filter_cons]
      simp only [h, Bool.false_eq_true, if_false]
      exact ih
    · rw [List.filterMap_cons, List.filter_cons]
      simp only [h, if_true, List.map_cons]
      rw [ih]

theorem videoExtensions_lower : ∀ videoExt ∈ videoExtensions, stringsToLower videoExt = videoExt := by
  decide

theorem videoExtension_match (ext : Str) :
    videoExtensions.any (fun videoExt => decide (ext = videoExt)) =
      videoExtensions.any (fun videoExt => ext == stringsToLower videoExt) := by
  apply Bool.eq_iff_iff.mpr
  simp only [List.any_eq_true, decide_eq_true_eq, beq_iff_eq]
  constructor
  · rintro ⟨videoExt, hmem, heq⟩
    exact ⟨videoExt, hmem, by rw [videoExtensions_lower videoExt hmem]; exact heq⟩
  · rintro ⟨videoExt, hmem, heq⟩
    exact ⟨videoExt, hmem, by rw [videoExtensions_lower videoExt hmem] at heq; exact heq⟩

theorem findVideoFiles_ok (t : UploadToBilibili) (w : Collaborators) (files : List DirEntry)
    (h : w.readDir = .ok files) :
    findVideoFiles t w =
      (files.filter fun file => !file.IsDir && videoExtensions.any fun videoExt =>
        stringsToLower (filepathExt file.Name) == stringsToLower videoExt).map
        fun file => w.filepathJoin t.CurrentDir file.Name := by
  unfold findVideoFiles
  simp only [h]
  rw [← filterMap_cond]
  apply congrArg (fun f => List.filterMap f files)
  funext file
  cases hdir : file.IsDir
  · simp only [Bool.false_eq_true, if_false, Bool.not_false, Bool.true_and,
      videoExtension_match]
  · simp only [if_true, Bool.not_true, Bool.false_and, Bool.false_eq_true, if_false]

theorem Execute_uploaded (t : UploadToBilibili) (w : Collaborators) (context : Context)
    (u : Unit) (videoPath : Str) (rest : List Str) (o : Outcome)
    (hvalid : w.loginIsValid = true) (hload : w.loginLoad = .ok u)
    (hfiles : findVideoFiles t w = videoPath :: rest)
    (h : Execute t w context = some o) : o.uploaded = some videoPath := by
  unfold Execute at h
  simp only [hvalid, hload, hfiles, Bool.not_true, Bool.false_eq_true, if_false] at h
  split at h
  · cases h; rfl
  · split at h
    · cases h
    · split at h
      · cases h; rfl
      · split at h
        · cases h; rfl
        · split at h
          · cases h; rfl
          · split at h <;> (cases h; rfl)

theorem Execute_noFiles (t : UploadToBilibili) (w : Collaborators) (context : Context)
    (u : Unit) (hvalid : w.loginIsValid = true) (hload : w.loginLoad = .ok u)
    (hfiles : findVideoFiles t w = []) :
    Execute t w context =
      some ⟨false, context.set "error".toList (.str "未找到视频文件".toList), none, none, none⟩ := by
  unfold Execute
  simp only [hvalid, hload, hfiles, Bool.not_true, Bool.false_eq_true, if_false]

/-! ## Lemmas on the idempotence of the title cleaning -/

theorem reSpace_unicodeIsSpace (c : Char) (h : reSpace c = true) : unicodeIsSpace c = true := by
  unfold reSpace at h
  simp only [Bool.or_eq_true, decide_eq_true_eq] at h
  rcases h with (((h | h) | h) | h) | h <;> subst h <;> decide

theorem drop_takeWhile_length (p : Char → Bool) (l : Str) :
    l.drop (l.takeWhile p).length = l.dropWhile p := by
  induction l with
  | nil => rfl
  | cons c cs ih =>
    cases h : p c
    · rw [List.takeWhile_cons_of_neg (by simp [h]), List.dropWhile_cons_of_neg (by simp [h])]
      rfl
    · rw [List.takeWhile_cons_of_pos h, List.dropWhile_cons_of_pos h, List.length_cons,
        List.drop_succ_cons, ih]

theorem collapse_cons_neg (c : Char) (cs : Str) (h : reSpace c = false) :
    regexpReplaceAll spacesMatch " ".toList 0 (c :: cs) =
      c :: regexpReplaceAll spacesMatch " ".toList 0 cs := by
  apply regexpReplaceAll_of_none
  unfold spacesMatch
  simp only
  rw [List.takeWhile_cons_of_neg (by simp [h])]
  rfl

theorem collapse_cons_pos (c : Char) (cs : Str) (h : reSpace c = true) :
    regexpReplaceAll spacesMatch " ".toList 0 (c :: cs) =
      ' ' :: regexpReplaceAll spacesMatch " ".toList 0 (cs.dropWhile reSpace) := by
  have hm : spacesMatch (c :: cs) = some ((c :: cs).takeWhile reSpace).length := by
    unfold spacesMatch
    simp only
    rw [List.takeWhile_cons_of_pos h]
    rfl
  have hpos : 0 < ((c :: cs).takeWhile reSpace).length := by
    rw [List.takeWhile_cons_of_pos h]
    exact Nat.succ_pos _
  rw [regexpReplaceAll_of_some spacesMatch " ".toList (c :: cs) _ (List.cons_ne_nil _ _) hpos hm,
    drop_takeWhile_length, List.dropWhile_cons_of_pos h]
  rfl

theorem collapse_nil : regexpReplaceAll spacesMatch " ".toList 0 [] = [] := rfl

theorem hashtagMatch_some_token (l : Str) (n : Nat) (h : hashtagMatch l = some n) :
    ∃ rest, l.dropWhile reSpace = '#' :: rest ∧
      (rest.takeWhile fun c => !(reSpace c || decide (c = '#'))) ≠ [] ∧
      n = (l.takeWhile reSpace).length + 1 +
        (rest.takeWhile fun c => !(reSpace c || decide (c = '#'))).length := by
  unfold hashtagMatch at h
  split at h
  · rename_i rest heq
    dsimp only at h
    split at h
    · cases h
    · rename_i hlen
      refine ⟨rest, heq, fun hnil => hlen (by rw [hnil]; rfl), ?_⟩
      cases h
      rfl
  · cases h

theorem hashtagMatch_some_spec (l : Str) (n : Nat) (h : hashtagMatch l = some n) :
    0 < n ∧ (l.drop n).length < l.length ∧
      ∀ d, (l.drop n).head? = some d → reSpace d = true ∨ d = '#' := by
  obtain ⟨rest, hdrop, hrun, hn⟩ := hashtagMatch_some_token l n h
  have hl : l = l.takeWhile reSpace ++ '#' :: rest := by
    rw [← hdrop, List.takeWhile_append_dropWhile]
  have hrest : rest = (rest.takeWhile fun c => !(reSpace c || decide (c = '#'))) ++
      (rest.dropWhile fun c => !(reSpace c || decide (c = '#'))) :=
    (List.takeWhile_append_dropWhile _ rest).symm
  have hdropn : l.drop n = rest.dropWhile fun c => !(reSpace c || decide (c = '#')) := by
    have hsplit : l = (l.takeWhile reSpace ++ '#' ::
        (rest.takeWhile fun c => !(reSpace c || decide (c = '#')))) ++
        (rest.dropWhile fun c => !(reSpace c || decide (c = '#'))) := by
      rw [List.append_assoc, List.cons_append, ← hrest]
      exact hl
    rw [hsplit]
    apply List.drop_left'
    rw [List.length_append, List.length_cons, hn]
    omega
  have hlen : l.length = (l.takeWhile reSpace).length + 1 + rest.length := by
    have h2 := congrArg List.length hl
    rw [List.length_append, List.length_cons] at h2
    omega
  refine ⟨by omega, ?_, ?_⟩
  · rw [hdropn]
    have h3 := (List.dropWhile_sublist (fun c => !(reSpace c || decide (c = '#')))
      (l := rest)).length_le
    omega
  · intro d hd
    rw [hdropn] at hd
    have h4 := List.head?_dropWhile_not (fun c => !(reSpace c || decide (c = '#'))) rest
    rw [hd] at h4
    simp only [Bool.not_eq_false', Bool.or_eq_true, decide_eq_true_eq] at h4
    exact h4

theorem hashtagMatch_hash_none (cs : Str) (h : hashtagMatch ('#' :: cs) = none) :
    ∀ d, cs.head? = some d → reSpace d = true ∨ d = '#' := by
  intro d hd
  cases cs with
  | nil => cases hd
  | cons e es =>
    have he : e = d := by simpa using hd
    subst he
    by_contra hcon
    have hq : (!(reSpace e || decide (e = '#'))) = true := by
      simp only [not_or] at hcon
      simp [hcon.1, hcon.2]
    have hsome : hashtagMatch ('#' :: e :: es) =
        some (0 + 1 + ((e :: es).takeWhile fun c => !(reSpace c || decide (c = '#'))).length) := by
      unfold hashtagMatch
      have hdrop : ('#' :: e :: es).dropWhile reSpace = '#' :: e :: es :=
        List.dropWhile_cons_of_neg (by decide)
      have htake : ('#' :: e :: es).takeWhile reSpace = [] :=
        List.takeWhile_cons_of_neg (by decide)
      simp only [hdrop, htake]
      rw [if_neg]
      · rfl
      · simp only [List.takeWhile_cons, hq, if_true, List.length_cons]
        exact Nat.succ_ne_zero _
    rw [hsome] at h
    cases h

theorem removeTags_head (l : Str)
    (hl : ∀ d, l.head? = some d → reSpace d = true ∨ d = '#') :
    ∀ d, (regexpReplaceAll hashtagMatch [] 0 l).head? = some d → reSpace d = true ∨ d = '#' := by
  induction' hn : l.length using Nat.strongRecOn with n ih generalizing l
  · cases l with
    | nil =>
      intro d hd
      cases hd
    | cons c cs =>
      cases hm : hashtagMatch (c :: cs) with
      | none =>
        rw [regexpReplaceAll_of_none _ _ _ _ hm]
        intro d hd
        exact hl d hd
      | some k =>
        obtain ⟨hk, hlen, hhead⟩ := hashtagMatch_some_spec _ _ hm
        rw [regexpReplaceAll_of_some _ _ _ _ (List.cons_ne_nil _ _) hk hm, List.nil_append]
        exact ih _ (by rw [← hn]; exact hlen) _ hhead rfl

theorem removeTags_noTag (l : Str) :
    List.Chain' (fun a b => a = '#' → reSpace b = true ∨ b = '#')
      (regexpReplaceAll hashtagMatch [] 0 l) := by
  induction' hn : l.length using Nat.strongRecOn with n ih generalizing l
  · cases l with
    | nil => exact List.chain'_nil
    | cons c cs =>
      cases hm : hashtagMatch (c :: cs) with
      | none =>
        rw [regexpReplaceAll_of_none _ _ _ _ hm]
        apply List.Chain'.cons'
        · exact ih _ (by rw [← hn]; exact Nat.lt_succ_self _) cs rfl
        · intro y hy hc
          subst hc
          exact removeTags_head cs (hashtagMatch_hash_none cs hm) y hy
      | some k =>
        obtain ⟨hk, hlen, _⟩ := hashtagMatch_some_spec _ _ hm
        rw [regexpReplaceAll_of_some _ _ _ _ (List.cons_ne_nil _ _) hk hm, List.nil_append]
        exact ih _ (by rw [← hn]; exact hlen) _ rfl

theorem hashtagMatch_none_of_noTag (l : Str)
    (h : List.Chain' (fun a b => a = '#' → reSpace b = true ∨ b = '#') l) :
    hashtagMatch l = none := by
  cases hm : hashtagMatch l with
  | none => rfl
  | some k =>
    exfalso
    obtain ⟨rest, hdrop, hrun, _⟩ := hashtagMatch_some_token l k hm
    cases rest with
    | nil => exact hrun rfl
    | cons d ds =>
      have hq : (!(reSpace d || decide (d = '#'))) = true := by
        by_contra hcon
        apply hrun
        simp only [List.takeWhile_cons, hcon, if_false]
        rfl
      have hsuf : '#' :: d :: ds <:+ l := by
        rw [← hdrop]
        exact List.dropWhile_suffix reSpace
      have hch := (h.suffix hsuf)
      have hr := (List.chain'_cons.mp hch).1 rfl
      simp only [Bool.not_eq_true', Bool.or_eq_false_iff, decide_eq_false_iff_not] at hq
      rcases hr with hr | hr
      · rw [hq.1] at hr
        cases hr
      · exact hq.2 hr

theorem removeTags_of_noTag (l : Str)
    (h : List.Chain' (fun a b => a = '#' → reSpace b = true ∨ b = '#') l) :
    regexpReplaceAll hashtagMatch [] 0 l = l := by
  induction l with
  | nil => rfl
  | cons c cs ih =>
    rw [regexpReplaceAll_of_none _ _ _ _ (hashtagMatch_none_of_noTag _ h), ih h.tail]

theorem stringsTrimSpace_infix (l : Str) : stringsTrimSpace l <:+: l := by
  have h1 : stringsTrimSpace l <+: l.dropWhile unicodeIsSpace :=
    List.rdropWhile_prefix unicodeIsSpace _
  exact List.IsInfix.trans h1.isInfix (List.dropWhile_suffix unicodeIsSpace).isInfix

theorem stringsTrimSpace_getLast (l : Str) :
    ∀ c, (stringsTrimSpace l).getLast? = some c → unicodeIsSpace c = false := by
  intro c hc
  unfold stringsTrimSpace at hc
  rw [List.getLast?_reverse] at hc
  have h := List.head?_dropWhile_not unicodeIsSpace (l.dropWhile unicodeIsSpace).reverse
  rw [hc] at h
  exact h

theorem stringsTrimSpace_head (l : Str) :
    ∀ c, (stringsTrimSpace l).head? = some c → unicodeIsSpace c = false := by
  intro c hc
  have hpre : stringsTrimSpace l <+: l.dropWhile unicodeIsSpace :=
    List.rdropWhile_prefix unicodeIsSpace _
  obtain ⟨z, hz⟩ := hpre
  have hhead : (l.dropWhile unicodeIsSpace).head? = some c := by
    rw [← hz]
    cases hs : stringsTrimSpace l with
    | nil => rw [hs] at hc; cases hc
    | cons a as =>
      rw [hs] at hc
      simpa using hc
  have h := List.head?_dropWhile_not unicodeIsSpace l
  rw [hhead] at h
  exact h

theorem collapse_head (l : Str) (h : ∀ c, l.head? = some c → reSpace c = false) :
    (regexpReplaceAll spacesMatch " ".toList 0 l).head? = l.head? := by
  cases l with
  | nil => rfl
  | cons c cs => rw [collapse_cons_neg c cs (h c rfl)]; rfl

theorem collapse_head_space (l : Str) :
    ∀ c, (regexpReplaceAll spacesMatch " ".toList 0 l).head? = some c →
      (reSpace c = true → c = ' ') ∧
        ∃ d, l.head? = some d ∧ (reSpace d = false → c = d) ∧ (reSpace d = true → c = ' ') := by
  intro c hc
  cases l with
  | nil => cases hc
  | cons d ds =>
    cases hd : reSpace d
    · rw [collapse_cons_neg d ds hd] at hc
      have hcd : d = c := by simpa using hc
      subst hcd
      exact ⟨fun h => absurd (hd.symm.trans h) (by decide), d, rfl, fun _ => rfl,
        fun h => absurd (hd.symm.trans h) (by decide)⟩
    · rw [collapse_cons_pos d ds hd] at hc
      have hcd : ' ' = c := by simpa using hc
      subst hcd
      exact ⟨fun _ => rfl, d, rfl, fun h => absurd (hd.symm.trans h) (by decide), fun _ => rfl⟩

theorem dropWhile_length_le (p : Char → Bool) (l : Str) : (l.dropWhile p).length ≤ l.length :=
  (List.dropWhile_sublist p).length_le

theorem collapse_getLast (l : Str) (x : Char) (hx : l.getLast? = some x)
    (hns : reSpace x = false) :
    (regexpReplaceAll spacesMatch " ".toList 0 l).getLast? = some x := by
  induction' hn : l.length using Nat.strongRecOn with n ih generalizing l
  · cases l with
    | nil => cases hx
    | cons c cs =>
      cases hc : reSpace c
      · rw [collapse_cons_neg c cs hc]
        cases cs with
        | nil =>
          rw [collapse_nil]
          exact hx
        | cons d ds =>
          have hx2 : (d :: ds).getLast? = some x := by
            rw [List.getLast?_cons_cons] at hx
            exact hx
          have hrec := ih _ (by rw [← hn]; exact Nat.lt_succ_self _) (d :: ds) hx2 rfl
          rw [List.getLast?_cons, hrec]
          rfl
      · rw [collapse_cons_pos c cs hc]
        have hcs : cs.getLast? = some x := by
          cases cs with
          | nil =>
            have hcx : c = x := by simpa using hx
            rw [hcx, hns] at hc
            cases hc
          | cons d ds =>
            rw [List.getLast?_cons_cons] at hx
            exact hx
        have hsuf : cs.dropWhile reSpace <:+ cs := List.dropWhile_suffix reSpace
        have hne : cs.dropWhile reSpace ≠ [] := by
          intro hnil
          have hall := List.dropWhile_eq_nil_iff.mp hnil
          have hmem : x ∈ cs := List.mem_of_mem_getLast? hcs
          have h1 := hall x hmem
          rw [hns] at h1
          cases h1
        have hlast : (cs.dropWhile reSpace).getLast? = some x := by
          obtain ⟨z, hz⟩ := hsuf
          rw [← hz, List.getLast?_append_of_ne_nil _ hne] at hcs
          exact hcs
        have hrec := ih _ (by
          rw [← hn, List.length_cons]
          exact Nat.lt_succ_of_le (dropWhile_length_le reSpace cs)) _ hlast rfl
        rw [List.getLast?_cons, hrec]
        rfl

theorem collapse_noTag (l : Str)
    (h : List.Chain' (fun a b => a = '#' → reSpace b = true ∨ b = '#') l) :
    List.Chain' (fun a b => a = '#' → reSpace b = true ∨ b = '#')
      (regexpReplaceAll spacesMatch " ".toList 0 l) := by
  induction' hn : l.length using Nat.strongRecOn with n ih generalizing l
  · cases l with
    | nil => exact List.chain'_nil
    | cons c cs =>
      cases hc : reSpace c
      · rw [collapse_cons_neg c cs hc]
        apply List.Chain'.cons'
        · exact ih _ (by rw [← hn]; exact Nat.lt_succ_self _) cs h.tail rfl
        · intro y hy hhash
          obtain ⟨_, d, hd, hneg, hpos⟩ := collapse_head_space cs y hy
          have hr := (List.chain'_cons'.mp h).1 d hd hhash
          rcases hr with hr | hr
          · left
            rw [hpos hr]
            decide
          · right
            have hns : reSpace d = false := by rw [hr]; decide
            rw [hneg hns]
            exact hr
      · rw [collapse_cons_pos c cs hc]
        apply List.Chain'.cons'
        · exact ih _ (by
            rw [← hn, List.length_cons]
            exact Nat.lt_succ_of_le (dropWhile_length_le reSpace cs)) _
            (h.tail.suffix (List.dropWhile_suffix reSpace)) rfl
        · intro y _ hhash
          exact absurd hhash (by decide)

theorem collapse_collapsed (l : Str) :
    List.Chain' (fun a b => ¬ (reSpace a = true ∧ reSpace b = true))
      (regexpReplaceAll spacesMatch " ".toList 0 l) ∧
    ∀ c ∈ regexpReplaceAll spacesMatch " ".toList 0 l, reSpace c = true → c = ' ' := by
  induction' hn : l.length using Nat.strongRecOn with n ih generalizing l
  · cases l with
    | nil => exact ⟨List.chain'_nil, fun c hc => absurd hc (List.not_mem_nil _)⟩
    | cons c cs =>
      cases hc : reSpace c
      · rw [collapse_cons_neg c cs hc]
        obtain ⟨ih1, ih2⟩ := ih _ (by rw [← hn]; exact Nat.lt_succ_self _) cs rfl
        refine ⟨List.Chain'.cons' ih1 ?_, ?_⟩
        · intro y _ hboth
          rw [hc] at hboth
          exact absurd hboth.1 (by decide)
        · intro e he hsp
          rcases List.mem_cons.mp he with heq | hmem
          · rw [heq, hc] at hsp
            cases hsp
          · exact ih2 e hmem hsp
      · rw [collapse_cons_pos c cs hc]
        obtain ⟨ih1, ih2⟩ := ih _ (by
            rw [← hn, List.length_cons]
            exact Nat.lt_succ_of_le (dropWhile_length_le reSpace cs)) (cs.dropWhile reSpace) rfl
        refine ⟨List.Chain'.cons' ih1 ?_, ?_⟩
        · intro y hy hboth
          have hhead := collapse_head (cs.dropWhile reSpace) (fun d hd => by
            have h := List.head?_dropWhile_not reSpace cs
            rw [hd] at h
            exact h)
          have hy2 : (cs.dropWhile reSpace).head? = some y := by
            rw [← hhead]; exact hy
          have h := List.head?_dropWhile_not reSpace cs
          rw [hy2] at h
          rw [h] at hboth
          exact absurd hboth.2 (by decide)
        · intro e he _
          rcases List.mem_cons.mp he with heq | hmem
          · exact heq
          · exact ih2 e hmem ‹_›

theorem collapse_of_collapsed (l : Str)
    (h : List.Chain' (fun a b => ¬ (reSpace a = true ∧ reSpace b = true)) l)
    (hplain : ∀ c ∈ l, reSpace c = true → c = ' ') :
    regexpReplaceAll spacesMatch " ".toList 0 l = l := by
  induction l with
  | nil => rfl
  | cons c cs ih =>
    have ihcs := ih h.tail (fun e he => hplain e (List.mem_cons_of_mem _ he))
    cases hc : reSpace c
    · rw [collapse_cons_neg c cs hc, ihcs]
    · have hdrop : cs.dropWhile reSpace = cs := by
        apply dropWhile_head_neg
        intro d hd
        have hr := (List.chain'_cons'.mp h).1 d hd
        cases hd2 : reSpace d
        · rfl
        · exact absurd ⟨hc, hd2⟩ hr
      rw [collapse_cons_pos c cs hc, hdrop, ihcs, ← hplain c (List.mem_cons_self _ _) hc]

theorem cleanTitle_noTag (title : Str) :
    List.Chain' (fun a b => a = '#' → reSpace b = true ∨ b = '#') (cleanTitle title) := by
  unfold cleanTitle
  apply collapse_noTag
  obtain ⟨s, r, hsr⟩ := stringsTrimSpace_infix (regexpReplaceAll hashtagMatch [] 0 title)
  have h := removeTags_noTag title
  rw [← hsr] at h
  exact h.left_of_append.right_of_append

theorem cleanTitle_head (title : Str) :
    ∀ c, (cleanTitle title).head? = some c → unicodeIsSpace c = false := by
  intro c hc
  unfold cleanTitle at hc
  have htrim := stringsTrimSpace_head (regexpReplaceAll hashtagMatch [] 0 title)
  have hns : ∀ d, (stringsTrimSpace (regexpReplaceAll hashtagMatch [] 0 title)).head? = some d →
      reSpace d = false := by
    intro d hd
    cases hr : reSpace d
    · rfl
    · have h1 := reSpace_unicodeIsSpace d hr
      rw [htrim d hd] at h1
      cases h1
  simp only at hc
  rw [collapse_head _ hns] at hc
  exact htrim c hc

theorem cleanTitle_getLast (title : Str) :
    ∀ c, (cleanTitle title).getLast? = some c → unicodeIsSpace c = false := by
  intro c hc
  unfold cleanTitle at hc
  simp only at hc
  cases hl : (stringsTrimSpace (regexpReplaceAll hashtagMatch [] 0 title)).getLast? with
  | none =>
    have hnil : stringsTrimSpace (regexpReplaceAll hashtagMatch [] 0 title) = [] :=
      List.getLast?_eq_none_iff.mp hl
    rw [hnil, collapse_nil] at hc
    cases hc
  | some x =>
    have hx := stringsTrimSpace_getLast _ x hl
    have hns : reSpace x = false := by
      cases hr : reSpace x
      · rfl
      · have h1 := reSpace_unicodeIsSpace x hr
        rw [hx] at h1
        cases h1
    rw [collapse_getLast _ x hl hns] at hc
    cases hc
    exact hx

theorem cleanTitle_fixed (x : Str)
    (htag : List.Chain' (fun a b => a = '#' → reSpace b = true ∨ b = '#') x)
    (hhead : ∀ c, x.head? = some c → unicodeIsSpace c = false)
    (hlast : ∀ c, x.getLast? = some c → unicodeIsSpace c = false)
    (hdouble : List.Chain' (fun a b => ¬ (reSpace a = true ∧ reSpace b = true)) x)
    (hplain : ∀ c ∈ x, reSpace c = true → c = ' ') : cleanTitle x = x := by
  unfold cleanTitle
  have htrim : stringsTrimSpace x = x := by
    have h := stringsTrimSpace_padded [] x []
      (fun _ hc => absurd hc (List.not_mem_nil _)) (fun _ hc => absurd hc (List.not_mem_nil _))
      hhead hlast
    simpa using h
  simp only [removeTags_of_noTag x htag, htrim, collapse_of_collapsed x hdouble hplain]
theorem Execute_loggedOut (t : UploadToBilibili) (w : Collaborators) (context : Context)
    (hvalid : w.loginIsValid = false) :
    Execute t w context =
      some ⟨false, context.set "error".toList (.str "未登录 Bilibili".toList), none, none, none⟩ := by
  unfold Execute
  simp only [hvalid, Bool.not_false, if_true]

theorem Execute_loadFailed (t : UploadToBilibili) (w : Collaborators) (context : Context)
    (err : Str) (hvalid : w.loginIsValid = true) (hload : w.loginLoad = .error err) :
    Execute t w context =
      some ⟨false, context.set "error".toList (.str ("加载登录信息失败: ".toList ++ err)),
        none, none, none⟩ := by
  unfold Execute
  simp only [hvalid, hload, Bool.not_true, Bool.false_eq_true, if_false]

theorem Execute_uploadFailed (t : UploadToBilibili) (w : Collaborators) (context : Context)
    (u : Unit) (videoPath : Str) (rest : List Str) (err : Str)
    (hvalid : w.loginIsValid = true) (hload : w.loginLoad = .ok u)
    (hfiles : findVideoFiles t w = videoPath :: rest)
    (hupload : w.uploadVideo videoPath = .error err) :
    Execute t w context =
      some ⟨false, context.set "error".toList
        (.str (getUserFriendlyError err "上传视频".toList)), some videoPath, none, none⟩ := by
  unfold Execute
  simp only [hvalid, hload, hfiles, hupload, Bool.not_true, Bool.false_eq_true, if_false]

theorem Execute_submitFailed (t : UploadToBilibili) (w : Collaborators) (context : Context)
    (u : Unit) (videoPath : Str) (rest : List Str) (video video' : Video) (studio : Studio)
    (err : Str)
    (hvalid : w.loginIsValid = true) (hload : w.loginLoad = .ok u)
    (hfiles : findVideoFiles t w = videoPath :: rest)
    (hupload : w.uploadVideo videoPath = .ok video)
    (hbuild : buildStudioInfo t w video context = some (studio, video'))
    (hsubmit : w.submitVideo studio = .error err) :
    Execute t w context =
      some ⟨false, context.set "error".toList
        (.str (getUserFriendlyError err "提交视频".toList)), some videoPath, some studio, none⟩ := by
  unfold Execute
  simp only [hvalid, hload, hfiles, hupload, hbuild, hsubmit, Bool.not_true, Bool.false_eq_true,
    if_false]

theorem Execute_rejected (t : UploadToBilibili) (w : Collaborators) (context : Context)
    (u : Unit) (videoPath : Str) (rest : List Str) (video video' : Video) (studio : Studio)
    (result : SubmitResult)
    (hvalid : w.loginIsValid = true) (hload : w.loginLoad = .ok u)
    (hfiles : findVideoFiles t w = videoPath :: rest)
    (hupload : w.uploadVideo videoPath = .ok video)
    (hbuild : buildStudioInfo t w video context = some (studio, video'))
    (hsubmit : w.submitVideo studio = .ok result) (hcode : result.Code ≠ 0) :
    Execute t w context =
      some ⟨false, context.set "error".toList
        (.str ("提交失败: code=".toList ++ fmtInt result.Code ++ ", message=".toList ++
          result.Message)), some videoPath, some studio, none⟩ := by
  unfold Execute
  simp only [hvalid, hload, hfiles, hupload, hbuild, hsubmit, hcode, Bool.not_true,
    Bool.false_eq_true, if_false, ne_eq, not_false_eq_true, if_true]

theorem Execute_accepted_ok (t : UploadToBilibili) (w : Collaborators) (context : Context)
    (u : Unit) (videoPath : Str) (rest : List Str) (video video' : Video) (studio : Studio)
    (result : SubmitResult)
    (hvalid : w.loginIsValid = true) (hload : w.loginLoad = .ok u)
    (hfiles : findVideoFiles t w = videoPath :: rest)
    (hupload : w.uploadVideo videoPath = .ok video)
    (hbuild : buildStudioInfo t w video context = some (studio, video'))
    (hsubmit : w.submitVideo studio = .ok result) (hcode : result.Code = 0) :
    ∃ o, Execute t w context = some o ∧ o.ok = true := by
  unfold Execute
  simp only [hvalid, hload, hfiles, hupload, hbuild, hsubmit, hcode, Bool.not_true,
    Bool.false_eq_true, if_false, ne_eq, not_true_eq_false]
  cases hget : w.getVideoAfter with
  | error err => exact ⟨_, rfl, rfl⟩
  | ok savedVideo =>
    simp only
    cases hupd : w.updateVideo (extractIds result.Data savedVideo
        ((context.set "bili_video".toList (.video video')).set "bili_result".toList
          (.result result))).1 with
    | error err => exact ⟨_, rfl, rfl⟩
    | ok v => exact ⟨_, rfl, rfl⟩

theorem Execute_failure_cause (t : UploadToBilibili) (w : Collaborators) (context : Context)
    (o : Outcome) (h : Execute t w context = some o) (hok : o.ok = false) :
    ∃ msg, o.context = context.set "error".toList (.str msg) ∧
      ((w.loginIsValid = false ∧ msg = "未登录 Bilibili".toList) ∨
       (w.loginIsValid = true ∧ ∃ err, w.loginLoad = .error err ∧
          msg = "加载登录信息失败: ".toList ++ err) ∨
       (w.loginIsValid = true ∧ (∃ u, w.loginLoad = .ok u) ∧ findVideoFiles t w = [] ∧
          msg = "未找到视频文件".toList) ∨
       (w.loginIsValid = true ∧ (∃ u, w.loginLoad = .ok u) ∧
          ∃ videoPath rest err, findVideoFiles t w = videoPath :: rest ∧
            w.uploadVideo videoPath = .error err ∧
            msg = getUserFriendlyError err "上传视频".toList) ∨
       (w.loginIsValid = true ∧ (∃ u, w.loginLoad = .ok u) ∧
          ∃ videoPath rest video studio video' err, findVideoFiles t w = videoPath :: rest ∧
            w.uploadVideo videoPath = .ok video ∧
            buildStudioInfo t w video context = some (studio, video') ∧
            w.submitVideo studio = .error err ∧
            msg = getUserFriendlyError err "提交视频".toList) ∨
       (w.loginIsValid = true ∧ (∃ u, w.loginLoad = .ok u) ∧
          ∃ videoPath rest video studio video' result, findVideoFiles t w = videoPath :: rest ∧
            w.uploadVideo videoPath = .ok video ∧
            buildStudioInfo t w video context = some (studio, video') ∧
            w.submitVideo studio = .ok result ∧ result.Code ≠ 0 ∧
            msg = "提交失败: code=".toList ++ fmtInt result.Code ++ ", message=".toList ++
              result.Message)) := by
  cases hvalid : w.loginIsValid with
  | false =>
    rw [Execute_loggedOut t w context hvalid] at h
    cases h
    exact ⟨_, rfl, Or.inl ⟨rfl, rfl⟩⟩
  | true =>
    cases hload : w.loginLoad with
    | error err =>
      rw [Execute_loadFailed t w context err hvalid hload] at h
      cases h
      exact ⟨_, rfl, Or.inr (Or.inl ⟨rfl, err, rfl, rfl⟩)⟩
    | ok u =>
      cases hfiles : findVideoFiles t w with
      | nil =>
        rw [Execute_noFiles t w context u hvalid hload hfiles] at h
        cases h
        exact ⟨_, rfl, Or.inr (Or.inr (Or.inl ⟨rfl, ⟨u, rfl⟩, rfl, rfl⟩))⟩
      | cons videoPath rest =>
        cases hupload : w.uploadVideo videoPath with
        | error err =>
          rw [Execute_uploadFailed t w context u videoPath rest err hvalid hload hfiles
            hupload] at h
          cases h
          exact ⟨_, rfl, Or.inr (Or.inr (Or.inr (Or.inl
            ⟨rfl, ⟨u, rfl⟩, videoPath, rest, err, rfl, hupload, rfl⟩)))⟩
        | ok video =>
          cases hbuild : buildStudioInfo t w video context with
          | none =>
            unfold Execute at h
            simp only [hvalid, hload, hfiles, hupload, hbuild, Bool.not_true,
              Bool.false_eq_true, if_false] at h
            cases h
          | some built =>
            obtain ⟨studio, video'⟩ := built
            cases hsubmit : w.submitVideo studio with
            | error err =>
              rw [Execute_submitFailed t w context u videoPath rest video video' studio err
                hvalid hload hfiles hupload hbuild hsubmit] at h
              cases h
              exact ⟨_, rfl, Or.inr (Or.inr (Or.inr (Or.inr (Or.inl
                ⟨rfl, ⟨u, rfl⟩, videoPath, rest, video, studio, video', err, rfl, hupload,
                  hbuild, hsubmit, rfl⟩))))⟩
            | ok result =>
              by_cases hcode : result.Code = 0
              · obtain ⟨o', ho', hok'⟩ := Execute_accepted_ok t w context u videoPath rest
                  video video' studio result hvalid hload hfiles hupload hbuild hsubmit hcode
                rw [ho'] at h
                cases h
                rw [hok'] at hok
                cases hok
              · rw [Execute_rejected t w context u videoPath rest video video' studio result
                  hvalid hload hfiles hupload hbuild hsubmit hcode] at h
                cases h
                exact ⟨_, rfl, Or.inr (Or.inr (Or.inr (Or.inr (Or.inr
                  ⟨rfl, ⟨u, rfl⟩, videoPath, rest, video, studio, video', result, rfl, hupload,
                    hbuild, hsubmit, hcode, rfl⟩))))⟩
theorem hashtagMatch_none_of_not_token (l : Str)
    (h : ∀ ws d rest, l = ws ++ '#' :: d :: rest → (∀ x ∈ ws, reSpace x = true) →
      reSpace d = false → d ≠ '#' → False) :
    hashtagMatch l = none := by
  cases hm : hashtagMatch l with
  | none => rfl
  | some n =>
    exfalso
    obtain ⟨rest, hdrop, hrun, _⟩ := hashtagMatch_some_token l n hm
    cases rest with
    | nil => exact hrun rfl
    | cons d rest' =>
      have hp : (!(reSpace d || decide (d = '#'))) = true := by
        by_contra hne
        apply hrun
        exact List.takeWhile_cons_of_neg (p := fun c => !(reSpace c || decide (c = '#'))) hne
      have hd : reSpace d = false ∧ d ≠ '#' := by
        simpa using hp
      refine h (l.takeWhile reSpace) d rest' ?_ (fun x hx => List.mem_takeWhile_imp hx) hd.1 hd.2
      rw [← hdrop, List.takeWhile_append_dropWhile]

theorem removeTags_keep (c : Char) (cs : Str)
    (h : ∀ ws d rest, c :: cs = ws ++ '#' :: d :: rest → (∀ x ∈ ws, reSpace x = true) →
      reSpace d = false → d ≠ '#' → False) :
    regexpReplaceAll hashtagMatch [] 0 (c :: cs) = c :: regexpReplaceAll hashtagMatch [] 0 cs :=
  regexpReplaceAll_of_none hashtagMatch [] c cs (hashtagMatch_none_of_not_token (c :: cs) h)

theorem removeTags_token_head (ws tag post : Str) (hws : ∀ c ∈ ws, reSpace c = true)
    (htag : tag ≠ []) (htagc : ∀ c ∈ tag, reSpace c = false ∧ c ≠ '#')
    (hpost : ∀ c, post.head? = some c → reSpace c = true ∨ c = '#') :
    regexpReplaceAll hashtagMatch [] 0 (ws ++ '#' :: (tag ++ post)) =
      regexpReplaceAll hashtagMatch [] 0 post := by
  have h := removeTags_token [] ws tag post (fun c hc => absurd hc (List.not_mem_nil c))
    (fun c hc => by cases hc) hws htag htagc hpost
  simpa using h


/-! ## Claims on the synthesizer -/

/-- C1: on every path of `buildStudioInfo` (record loaded or not, any
configuration or none, any content identifier) the `Title` of the returned
submission spec has at most 80 code points; and the function does return a
spec unless the second lookup after a backfill yields a nil record. -/
theorem buildStudioInfo_title_le (t : UploadToBilibili) (w : Collaborators) (video : Video)
    (context : Context) :
    (loadRecord w ≠ .ok none → (buildStudioInfo t w video context).isSome = true) ∧
    ∀ r, buildStudioInfo t w video context = some r → r.1.Title.length ≤ 80 := by
  refine ⟨buildStudioInfo_isSome t w video context, ?_⟩
  intro r hr
  cases h : loadRecord w with
  | error err =>
    obtain ⟨st, h1, h2, _⟩ := buildStudioInfo_noRecord t w video context err h
    rw [h1] at hr
    cases hr
    simp only [h2]
    exact truncateTitle_80_length _
  | ok rec =>
    cases rec with
    | none =>
      rw [buildStudioInfo_nil t w video context h] at hr
      cases hr
    | some savedVideo =>
      obtain ⟨st, h1, h2, _⟩ := buildStudioInfo_record t w video context savedVideo h
      rw [h1] at hr
      cases hr
      simp only [h2]
      exact limitTitle_length _

/-- Witness of C1 on the sample record: a spec is returned and its title has
at most 80 code points. -/
theorem buildStudioInfo_title_le_witness :
    ∃ r, buildStudioInfo sampleHandler (sampleCollaborators sampleRecord acceptedResult)
        ⟨[], []⟩ emptyContext = some r ∧ r.1.Title.length ≤ 80 := by
  have h := buildStudioInfo_title_le sampleHandler (sampleCollaborators sampleRecord acceptedResult)
    ⟨[], []⟩ emptyContext
  obtain ⟨r, hr⟩ := Option.isSome_iff_exists.mp (h.1 (by decide))
  exact ⟨r, hr, h.2 r hr⟩

/-- C2: on every path of `buildStudioInfo` (any source description, AI
description and source URL, any configuration or none) the `Desc` of the
returned submission spec has at most 2000 code points. -/
theorem buildStudioInfo_desc_le (t : UploadToBilibili) (w : Collaborators) (video : Video)
    (context : Context) :
    (loadRecord w ≠ .ok none → (buildStudioInfo t w video context).isSome = true) ∧
    ∀ r, buildStudioInfo t w video context = some r → r.1.Desc.length ≤ 2000 := by
  refine ⟨buildStudioInfo_isSome t w video context, ?_⟩
  intro r hr
  cases h : loadRecord w with
  | error err =>
    obtain ⟨st, h1, _, h3, _⟩ := buildStudioInfo_noRecord t w video context err h
    rw [h1] at hr
    cases hr
    simp only [h3]
    decide
  | ok rec =>
    cases rec with
    | none =>
      rw [buildStudioInfo_nil t w video context h] at hr
      cases hr
    | some savedVideo =>
      obtain ⟨st, h1, _, h3, _⟩ := buildStudioInfo_record t w video context savedVideo h
      rw [h1] at hr
      cases hr
      simp only [h3]
      exact finalizeDesc_length _ _

/-- Witness of C2 on the record with the over-long source URL: a spec is
returned and its description has at most 2000 code points. -/
theorem buildStudioInfo_desc_le_witness :
    ∃ r, buildStudioInfo sampleHandler (sampleCollaborators longUrlRecord acceptedResult)
        ⟨[], []⟩ emptyContext = some r ∧ r.1.Desc.length ≤ 2000 := by
  have h := buildStudioInfo_desc_le sampleHandler (sampleCollaborators longUrlRecord acceptedResult)
    ⟨[], []⟩ emptyContext
  obtain ⟨r, hr⟩ := Option.isSome_iff_exists.mp (h.1 (by decide))
  exact ⟨r, hr, h.2 r hr⟩

/-- C3 as stated fails: for the record whose source URL has 1930 code points
the attribution suffix has 2001, the final cut at 2000 code points removes
its end, and the description does not end with the suffix. -/
theorem buildStudioInfo_suffix_cut :
    longUrlRecord.URL ≠ [] ∧
    ∃ r, buildStudioInfo sampleHandler (sampleCollaborators longUrlRecord acceptedResult)
        ⟨[], []⟩ emptyContext = some r ∧
      ¬ ("\n\n━━━━━━━━━━━━━━━━━━━━━━━━━━━━━━━━━━━━━━━━\n📺 原视频链接：".toList ++ longUrlRecord.URL ++
          "\n🔄 本视频为转载内容，仅供学习交流使用".toList <:+ r.1.Desc) := by
  have h7 : longUrlRecord.URL.length = 1930 := List.length_replicate 1930 'a'
  have hurl : longUrlRecord.URL ≠ [] := by
    intro h
    rw [h] at h7
    exact absurd h7 (by decide)
  refine ⟨hurl, ?_⟩
  obtain ⟨st, h1, _, h3, _⟩ := buildStudioInfo_record sampleHandler
    (sampleCollaborators longUrlRecord acceptedResult) ⟨[], []⟩ emptyContext longUrlRecord rfl
  refine ⟨_, h1, ?_⟩
  intro hs
  have hlen : _ ≤ st.Desc.length := hs.length_le
  have h4 : st.Desc.length ≤ 2000 := by rw [h3]; exact finalizeDesc_length _ _
  have h5 := linkSuffix_length longUrlRecord.URL hurl
  have h6 : linkSuffix longUrlRecord.URL =
      "\n\n━━━━━━━━━━━━━━━━━━━━━━━━━━━━━━━━━━━━━━━━\n📺 原视频链接：".toList ++ longUrlRecord.URL ++
          "\n🔄 本视频为转载内容，仅供学习交流使用".toList := by
    unfold linkSuffix; rw [if_pos hurl]
  rw [← h6, h5] at hlen
  omega

/-- C3, amended: when the record has a non-empty source URL whose attribution
suffix has at most 2000 code points, the description of the returned spec
ends with that exact suffix, whatever the length of the description body. -/
theorem buildStudioInfo_desc_suffix (t : UploadToBilibili) (w : Collaborators) (video : Video)
    (context : Context) (savedVideo : SavedVideo) (r : Studio × Video)
    (hrec : loadRecord w = .ok (some savedVideo)) (hurl : savedVideo.URL ≠ [])
    (hlen : (linkSuffix savedVideo.URL).length ≤ 2000)
    (hr : buildStudioInfo t w video context = some r) :
    "\n\n━━━━━━━━━━━━━━━━━━━━━━━━━━━━━━━━━━━━━━━━\n📺 原视频链接：".toList ++ savedVideo.URL ++
      "\n🔄 本视频为转载内容，仅供学习交流使用".toList <:+ r.1.Desc := by
  obtain ⟨st, h1, _, h3, _⟩ := buildStudioInfo_record t w video context savedVideo hrec
  rw [h1] at hr
  cases hr
  have h6 : linkSuffix savedVideo.URL =
      "\n\n━━━━━━━━━━━━━━━━━━━━━━━━━━━━━━━━━━━━━━━━\n📺 原视频链接：".toList ++ savedVideo.URL ++
          "\n🔄 本视频为转载内容，仅供学习交流使用".toList := by
    unfold linkSuffix; rw [if_pos hurl]
  simp only [h3]
  rw [← h6, finalizeDesc_eq_appendLink _ _ hlen]
  exact appendLink_suffix _ _

/-- Witness of the amended C3 on the sample record, whose suffix has 114 code
points. -/
theorem buildStudioInfo_desc_suffix_witness :
    ∃ r, buildStudioInfo sampleHandler (sampleCollaborators sampleRecord acceptedResult)
        ⟨[], []⟩ emptyContext = some r ∧
      "\n\n━━━━━━━━━━━━━━━━━━━━━━━━━━━━━━━━━━━━━━━━\n📺 原视频链接：".toList ++ sampleRecord.URL ++
        "\n🔄 本视频为转载内容，仅供学习交流使用".toList <:+ r.1.Desc := by
  obtain ⟨r, hr⟩ := Option.isSome_iff_exists.mp
    (buildStudioInfo_isSome sampleHandler (sampleCollaborators sampleRecord acceptedResult)
      ⟨[], []⟩ emptyContext (by decide))
  exact ⟨r, hr, buildStudioInfo_desc_suffix sampleHandler
    (sampleCollaborators sampleRecord acceptedResult) ⟨[], []⟩ emptyContext sampleRecord r rfl
    (by decide) (by decide) hr⟩

/-! ## Claims on the classifier -/

/-- C4: `getUserFriendlyError` is the first-match-wins classifier over the
priority-ordered rule list, for every error text and operation; hence a text
that contains "connection refused" and none of the four markers of the two
earlier rules is classified connection-refused. -/
theorem getUserFriendlyError_first_match (errorStr operation : Str) :
    getUserFriendlyError errorStr operation = firstMatchClassifier errorStr operation ∧
    ("connection refused".toList <:+: errorStr → ¬ "broken pipe".toList <:+: errorStr →
      ¬ "connection reset".toList <:+: errorStr → ¬ "timeout".toList <:+: errorStr →
      ¬ "deadline exceeded".toList <:+: errorStr →
      getUserFriendlyError errorStr operation =
        operation ++ "失败：".toList ++ "无法连接到B站服务器，请检查网络连接".toList) := by
  refine ⟨getUserFriendlyError_refines errorStr operation, ?_⟩
  intro h h1 h2 h3 h4
  rw [← stringsContains_iff] at h h1 h2 h3 h4
  rw [Bool.not_eq_true] at h1 h2 h3 h4
  rw [getUserFriendlyError, h, h1, h2, h3, h4, List.append_assoc]
  rfl

/-- Witness of C4: "dial tcp: connection refused" is classified
connection-refused. -/
theorem getUserFriendlyError_first_match_witness :
    getUserFriendlyError "dial tcp: connection refused".toList "上传视频".toList =
      "上传视频失败：无法连接到B站服务器，请检查网络连接".toList := by
  have h := (getUserFriendlyError_first_match "dial tcp: connection refused".toList
    "上传视频".toList).2
    ((stringsContains_iff _ _).mp (by decide))
    (fun h => absurd ((stringsContains_iff _ _).mpr h) (by decide))
    (fun h => absurd ((stringsContains_iff _ _).mpr h) (by decide))
    (fun h => absurd ((stringsContains_iff _ _).mpr h) (by decide))
    (fun h => absurd ((stringsContains_iff _ _).mpr h) (by decide))
  rw [h]
  decide

/-- C5: `getUserFriendlyError` returns the unknown message exactly when no
marker of the classifier is a substring of the error text; "random gremlin"
yields unknown. -/
theorem getUserFriendlyError_unknown_iff (errorStr operation : Str) :
    (getUserFriendlyError errorStr operation =
        operation ++ "失败：发生未知错误，请重试或联系技术支持".toList ↔
      ∀ marker ∈ classifierMarkers, ¬ marker <:+: errorStr) ∧
    getUserFriendlyError "random gremlin".toList operation =
      operation ++ "失败：发生未知错误，请重试或联系技术支持".toList := by
  have key : ∀ e : Str, (getUserFriendlyError e operation =
        operation ++ "失败：发生未知错误，请重试或联系技术支持".toList ↔
      ∀ marker ∈ classifierMarkers, ¬ marker <:+: e) := by
    intro e
    rw [getUserFriendlyError_refines, firstMatchClassifier]
    have hu : operation ++ "失败：发生未知错误，请重试或联系技术支持".toList =
        operation ++ "失败：".toList ++ unknownMessage := by
      rw [List.append_assoc]; rfl
    rw [hu]
    simp only [List.append_cancel_left_eq]
    cases hf : classifierRules.find?
        (fun rule => rule.1.any fun marker => decide (marker <:+: e)) with
    | none =>
      simp only [Option.map_none', Option.getD_none, true_iff]
      intro marker hm hin
      obtain ⟨rule, hrule, hmr⟩ := (mem_classifierMarkers marker).mp hm
      have h1 := List.find?_eq_none.mp hf rule hrule
      apply h1
      exact List.any_eq_true.mpr ⟨marker, hmr, decide_eq_true hin⟩
    | some rule =>
      simp only [Option.map_some', Option.getD_some]
      have hmem := List.mem_of_find?_eq_some hf
      have hp := List.find?_some hf
      constructor
      · intro h
        exact absurd h (classifierRules_message_ne rule hmem)
      · intro h
        obtain ⟨marker, hmr, hd⟩ := List.any_eq_true.mp hp
        exact absurd (of_decide_eq_true hd)
          (h marker ((mem_classifierMarkers marker).mpr ⟨rule, hmem, hmr⟩))
  refine ⟨key errorStr, ?_⟩
  rw [key]
  intro marker hm
  rw [← stringsContains_iff]
  revert marker
  decide

/-! ## Claims on the orchestrator -/

/-- C6: for every behaviour of the collaborators, whenever `Execute` returns
false the run context holds under "error" a string that is not empty; and
`Execute` does return unless the second lookup after a backfill yields a nil
record. -/
theorem Execute_false_error_entry (t : UploadToBilibili) (w : Collaborators) (context : Context) :
    (loadRecord w ≠ .ok none → (Execute t w context).isSome = true) ∧
    ∀ o, Execute t w context = some o → o.ok = false →
      ∃ msg, o.context "error".toList = some (.str msg) ∧ msg ≠ [] := by
  refine ⟨Execute_isSome t w context, ?_⟩
  intro o h hok
  obtain ⟨msg, hctx, hmsg⟩ := Execute_failure t w context o h hok
  refine ⟨msg, by rw [hctx]; simp [Context.set], ?_⟩
  rcases hmsg with h1 | ⟨err, _, h1⟩ | h1 | ⟨_, err, _, h1⟩ | ⟨_, err, _, h1⟩ | ⟨_, result, _, _, h1⟩
  · rw [h1]; decide
  · rw [h1]; exact List.append_ne_nil_of_left_ne_nil (by decide) _
  · rw [h1]; decide
  · rw [h1]; exact getUserFriendlyError_ne_nil _ _
  · rw [h1]; exact getUserFriendlyError_ne_nil _ _
  · rw [h1, List.append_assoc, List.append_assoc]
    exact List.append_ne_nil_of_left_ne_nil (by decide) _

/-- Witness of C6: without a valid credential `Execute` returns false and
leaves a non-empty "error" string. -/
theorem Execute_false_error_entry_witness :
    ∃ o, Execute sampleHandler loggedOutCollaborators emptyContext = some o ∧ o.ok = false ∧
      ∃ msg, o.context "error".toList = some (.str msg) ∧ msg ≠ [] :=
  ⟨_, rfl, rfl, (Execute_false_error_entry sampleHandler loggedOutCollaborators emptyContext).2
    _ rfl rfl⟩

/-- C7 as stated fails: a submission answered with the non-zero code -400
makes `Execute` return false with the formatted text of the code and the
message under "error", and a run without a valid credential leaves the fixed
text for it; neither is an output of `getUserFriendlyError`. -/
theorem Execute_error_unclassified :
    (∃ o, Execute sampleHandler (sampleCollaborators sampleRecord rejectedResult) emptyContext =
        some o ∧ o.ok = false ∧
      o.context "error".toList = some (.str "提交失败: code=-400, message=请求错误".toList) ∧
      ∀ errorStr operation,
        getUserFriendlyError errorStr operation ≠ "提交失败: code=-400, message=请求错误".toList) ∧
    (∃ o, Execute sampleHandler loggedOutCollaborators emptyContext = some o ∧ o.ok = false ∧
      o.context "error".toList = some (.str "未登录 Bilibili".toList) ∧
      ∀ errorStr operation, getUserFriendlyError errorStr operation ≠ "未登录 Bilibili".toList) := by
  refine ⟨⟨_, rfl, rfl, by decide, ?_⟩, ⟨_, rfl, rfl, by decide, ?_⟩⟩
  · intro errorStr operation h
    have h2 := getUserFriendlyError_getLast errorStr operation
    rw [h] at h2
    revert h2
    decide
  · intro errorStr operation h
    have h2 := getUserFriendlyError_getLast errorStr operation
    rw [h] at h2
    revert h2
    decide

/-- C7, amended: every false return of `Execute` is one of six failures, and
the text under "error" is fixed by the failure that occurred. Without a valid
credential it is the fixed text for it; when the credential fails to load it
is the load error after its fixed heading; when no video file is found it is
the fixed text for that; when `UploadVideo`, called on the first file found,
returns an error it is the classifier's output for that error and the
operation "上传视频"; when `SubmitVideo`, called on the spec that
`buildStudioInfo` built, returns an error it is the classifier's output
for that error and the operation "提交视频"; when that submission is answered
with a non-zero code it is the formatted code and message. Conversely each of
the six failures makes `Execute` return false with exactly that text. Only the
errors of `UploadVideo` and `SubmitVideo` pass through the classifier. -/
theorem Execute_failure_messages (t : UploadToBilibili) (w : Collaborators) (context : Context) :
    (∀ o, Execute t w context = some o → o.ok = false →
      ∃ msg, o.context = context.set "error".toList (.str msg) ∧
        o.context "error".toList = some (.str msg) ∧
        ((w.loginIsValid = false ∧ msg = "未登录 Bilibili".toList) ∨
         (w.loginIsValid = true ∧ ∃ err, w.loginLoad = .error err ∧
            msg = "加载登录信息失败: ".toList ++ err) ∨
         (w.loginIsValid = true ∧ (∃ u, w.loginLoad = .ok u) ∧ findVideoFiles t w = [] ∧
            msg = "未找到视频文件".toList) ∨
         (w.loginIsValid = true ∧ (∃ u, w.loginLoad = .ok u) ∧
            ∃ videoPath rest err, findVideoFiles t w = videoPath :: rest ∧
              w.uploadVideo videoPath = .error err ∧
              msg = getUserFriendlyError err "上传视频".toList) ∨
         (w.loginIsValid = true ∧ (∃ u, w.loginLoad = .ok u) ∧
            ∃ videoPath rest video studio video' err, findVideoFiles t w = videoPath :: rest ∧
              w.uploadVideo videoPath = .ok video ∧
              buildStudioInfo t w video context = some (studio, video') ∧
              w.submitVideo studio = .error err ∧
              msg = getUserFriendlyError err "提交视频".toList) ∨
         (w.loginIsValid = true ∧ (∃ u, w.loginLoad = .ok u) ∧
            ∃ videoPath rest video studio video' result, findVideoFiles t w = videoPath :: rest ∧
              w.uploadVideo videoPath = .ok video ∧
              buildStudioInfo t w video context = some (studio, video') ∧
              w.submitVideo studio = .ok result ∧ result.Code ≠ 0 ∧
              msg = "提交失败: code=".toList ++ fmtInt result.Code ++ ", message=".toList ++
                result.Message))) ∧
    (w.loginIsValid = false →
      ∃ o, Execute t w context = some o ∧ o.ok = false ∧
        o.context = context.set "error".toList (.str "未登录 Bilibili".toList)) ∧
    (∀ err, w.loginIsValid = true → w.loginLoad = .error err →
      ∃ o, Execute t w context = some o ∧ o.ok = false ∧
        o.context = context.set "error".toList (.str ("加载登录信息失败: ".toList ++ err))) ∧
    (∀ u, w.loginIsValid = true → w.loginLoad = .ok u → findVideoFiles t w = [] →
      ∃ o, Execute t w context = some o ∧ o.ok = false ∧
        o.context = context.set "error".toList (.str "未找到视频文件".toList)) ∧
    (∀ u videoPath rest err, w.loginIsValid = true → w.loginLoad = .ok u →
      findVideoFiles t w = videoPath :: rest → w.uploadVideo videoPath = .error err →
      ∃ o, Execute t w context = some o ∧ o.ok = false ∧
        o.context = context.set "error".toList
          (.str (getUserFriendlyError err "上传视频".toList))) ∧
    (∀ u videoPath rest video studio video' err, w.loginIsValid = true → w.loginLoad = .ok u →
      findVideoFiles t w = videoPath :: rest → w.uploadVideo videoPath = .ok video →
      buildStudioInfo t w video context = some (studio, video') →
      w.submitVideo studio = .error err →
      ∃ o, Execute t w context = some o ∧ o.ok = false ∧
        o.context = context.set "error".toList
          (.str (getUserFriendlyError err "提交视频".toList))) ∧
    (∀ u videoPath rest video studio video' result, w.loginIsValid = true →
      w.loginLoad = .ok u → findVideoFiles t w = videoPath :: rest →
      w.uploadVideo videoPath = .ok video →
      buildStudioInfo t w video context = some (studio, video') →
      w.submitVideo studio = .ok result → result.Code ≠ 0 →
      ∃ o, Execute t w context = some o ∧ o.ok = false ∧
        o.context = context.set "error".toList
          (.str ("提交失败: code=".toList ++ fmtInt result.Code ++ ", message=".toList ++
            result.Message))) := by
  refine ⟨?_, ?_, ?_, ?_, ?_, ?_, ?_⟩
  · intro o h hok
    obtain ⟨msg, hctx, hmsg⟩ := Execute_failure_cause t w context o h hok
    exact ⟨msg, hctx, by rw [hctx]; simp [Context.set], hmsg⟩
  · intro hvalid
    exact ⟨_, Execute_loggedOut t w context hvalid, rfl, rfl⟩
  · intro err hvalid hload
    exact ⟨_, Execute_loadFailed t w context err hvalid hload, rfl, rfl⟩
  · intro u hvalid hload hfiles
    exact ⟨_, Execute_noFiles t w context u hvalid hload hfiles, rfl, rfl⟩
  · intro u videoPath rest err hvalid hload hfiles hupload
    exact ⟨_, Execute_uploadFailed t w context u videoPath rest err hvalid hload hfiles hupload,
      rfl, rfl⟩
  · intro u videoPath rest video studio video' err hvalid hload hfiles hupload hbuild hsubmit
    exact ⟨_, Execute_submitFailed t w context u videoPath rest video video' studio err hvalid
      hload hfiles hupload hbuild hsubmit, rfl, rfl⟩
  · intro u videoPath rest video studio video' result hvalid hload hfiles hupload hbuild hsubmit
      hcode
    exact ⟨_, Execute_rejected t w context u videoPath rest video video' studio result hvalid
      hload hfiles hupload hbuild hsubmit hcode, rfl, rfl⟩

/-- Witness of the amended C7 on three runs: an upload refused by the server
and a submission that exceeds its deadline leave the classifier's text for
the error, and a submission answered with code -400 leaves the formatted code
and message. -/
theorem Execute_failure_messages_witness :
    (∃ o, Execute sampleHandler uploadRefusedCollaborators emptyContext = some o ∧
      o.ok = false ∧
      o.context = emptyContext.set "error".toList
        (.str "上传视频失败：无法连接到B站服务器，请检查网络连接".toList)) ∧
    (∃ o, Execute sampleHandler submitTimeoutCollaborators emptyContext = some o ∧
      o.ok = false ∧
      o.context = emptyContext.set "error".toList
        (.str "提交视频失败：网络超时，请稍后重试".toList)) ∧
    (∃ o, Execute sampleHandler (sampleCollaborators sampleRecord rejectedResult) emptyContext =
        some o ∧ o.ok = false ∧
      o.context = emptyContext.set "error".toList
        (.str "提交失败: code=-400, message=请求错误".toList)) := by
  obtain ⟨r, hr⟩ := Option.isSome_iff_exists.mp
    (buildStudioInfo_isSome sampleHandler submitTimeoutCollaborators
      ⟨"/data/dQw4w9WgXcQ/video.MP4".toList, []⟩ emptyContext (by decide))
  obtain ⟨r', hr'⟩ := Option.isSome_iff_exists.mp
    (buildStudioInfo_isSome sampleHandler (sampleCollaborators sampleRecord rejectedResult)
      ⟨"/data/dQw4w9WgXcQ/video.MP4".toList, []⟩ emptyContext (by decide))
  refine ⟨?_, ?_, ?_⟩
  · exact (Execute_failure_messages sampleHandler uploadRefusedCollaborators
      emptyContext).2.2.2.2.1 () "/data/dQw4w9WgXcQ/video.MP4".toList []
      "dial tcp: connection refused".toList rfl rfl (by decide) rfl
  · exact (Execute_failure_messages sampleHandler submitTimeoutCollaborators
      emptyContext).2.2.2.2.2.1 () "/data/dQw4w9WgXcQ/video.MP4".toList []
      ⟨"/data/dQw4w9WgXcQ/video.MP4".toList, []⟩ r.1 r.2
      "context deadline exceeded".toList rfl rfl (by decide) rfl hr rfl
  · exact (Execute_failure_messages sampleHandler
      (sampleCollaborators sampleRecord rejectedResult) emptyContext).2.2.2.2.2.2 ()
      "/data/dQw4w9WgXcQ/video.MP4".toList []
      ⟨"/data/dQw4w9WgXcQ/video.MP4".toList, []⟩ r'.1 r'.2 rejectedResult rfl rfl (by decide) rfl
      hr' rfl (by decide)

/-- C8: once the submission has been accepted (`SubmitVideo` returns no error
and code 0), `Execute` returns true and the "error" entry of the context is
what it was before the run, whatever the record lookup and the record update
answer and whatever the data of the result holds. -/
theorem Execute_accepted (t : UploadToBilibili) (w : Collaborators) (context : Context)
    (u : Unit) (videoPath : Str) (rest : List Str) (video video' : Video) (studio : Studio)
    (result : SubmitResult)
    (hvalid : w.loginIsValid = true) (hload : w.loginLoad = .ok u)
    (hfiles : findVideoFiles t w = videoPath :: rest)
    (hupload : w.uploadVideo videoPath = .ok video)
    (hbuild : buildStudioInfo t w video context = some (studio, video'))
    (hsubmit : w.submitVideo studio = .ok result) (hcode : result.Code = 0) :
    ∃ o, Execute t w context = some o ∧ o.ok = true ∧
      o.context "error".toList = context "error".toList := by
  unfold Execute
  simp only [hvalid, hload, hfiles, hupload, hbuild, hsubmit, hcode, Bool.not_true,
    Bool.false_eq_true, if_false, ne_eq, not_true_eq_false]
  have hset : ∀ (c : Context), ((c.set "bili_video".toList (.video video')).set
      "bili_result".toList (.result result)) "error".toList = c "error".toList := by
    intro c
    simp [Context.set]
  cases hget : w.getVideoAfter with
  | error err => exact ⟨_, rfl, rfl, hset context⟩
  | ok savedVideo =>
    simp only
    cases hupd : w.updateVideo (extractIds result.Data savedVideo
        ((context.set "bili_video".toList (.video video')).set "bili_result".toList
          (.result result))).1 with
    | error err => exact ⟨_, rfl, rfl, by simp only [extractIds_error]; exact hset context⟩
    | ok v => exact ⟨_, rfl, rfl, by simp only [extractIds_error]; exact hset context⟩
/-- Witness of C8 on the sample run: the submission is accepted, `Execute`
returns true and no "error" entry appears. -/
theorem Execute_accepted_witness :
    ∃ o, Execute sampleHandler (sampleCollaborators sampleRecord acceptedResult) emptyContext =
        some o ∧ o.ok = true ∧ o.context "error".toList = emptyContext "error".toList := by
  obtain ⟨r, hr⟩ := Option.isSome_iff_exists.mp
    (buildStudioInfo_isSome sampleHandler (sampleCollaborators sampleRecord acceptedResult)
      ⟨"/data/dQw4w9WgXcQ/video.MP4".toList, []⟩ emptyContext (by decide))
  exact Execute_accepted sampleHandler (sampleCollaborators sampleRecord acceptedResult)
    emptyContext () "/data/dQw4w9WgXcQ/video.MP4".toList []
    ⟨"/data/dQw4w9WgXcQ/video.MP4".toList, []⟩ r.2 r.1 acceptedResult rfl rfl (by decide) rfl hr
    rfl rfl

/-! ## Claims on truncation -/

/-- C9 fails on the code: for a stored record whose source title is 81 times
the letter a (no configuration), the selected title has 81 code points and
the returned title is its first 80 code points, not its first 77 followed by
the ellipsis; the guard inside the record branch cuts to 80 before
`truncateTitle` is reached. -/
theorem buildStudioInfo_long_title_cut :
    selectTitle sampleHandler.VideoID sampleHandler.BilibiliConfig longTitleRecord =
      List.replicate 81 'a' ∧
    ∃ r, buildStudioInfo sampleHandler (sampleCollaborators longTitleRecord acceptedResult)
        ⟨[], []⟩ emptyContext = some r ∧
      r.1.Title = List.replicate 80 'a' ∧
      r.1.Title ≠ (List.replicate 81 'a').take 77 ++ "...".toList := by
  obtain ⟨st, h1, h2, _⟩ := buildStudioInfo_record sampleHandler
    (sampleCollaborators longTitleRecord acceptedResult) ⟨[], []⟩ emptyContext longTitleRecord rfl
  have hsel : selectTitle sampleHandler.VideoID sampleHandler.BilibiliConfig longTitleRecord =
      List.replicate 81 'a' := by decide
  refine ⟨hsel, _, h1, ?_, ?_⟩
  · show st.Title = _
    rw [h2, hsel]; decide
  · show st.Title ≠ _
    rw [h2, hsel]; decide

/-- C10: for a non-empty source URL whose suffix has `s` code points and an
allowed length `a = 2000 - s - 20` above 3, a body of more than `a` code
points gives the description made of the first `a` code points of the body,
the ellipsis, and the suffix; it has `a + 3 + s = 1983` code points, so the
final cut does not apply. The same holds for the `Desc` of the spec returned
by `buildStudioInfo` for a record with that body and URL. -/
theorem finalizeDesc_truncated (desc url : Str) (a : Int) (hurl : url ≠ [])
    (ha : a = 2000 - ((linkSuffix url).length : Int) - 20) (ha3 : a > 3)
    (hlen : (desc.length : Int) > a) :
    finalizeDesc desc url = desc.take a.toNat ++ "...".toList ++ linkSuffix url ∧
    (finalizeDesc desc url).length = 1983 ∧
    a.toNat + 3 + (linkSuffix url).length = 1983 ∧
    ∀ (t : UploadToBilibili) (w : Collaborators) (video : Video) (context : Context)
      (savedVideo : SavedVideo) (r : Studio × Video),
      loadRecord w = .ok (some savedVideo) → selectDesc t.BilibiliConfig savedVideo = desc →
      savedVideo.URL = url → buildStudioInfo t w video context = some r →
      r.1.Desc = desc.take a.toNat ++ "...".toList ++ linkSuffix url := by
  have hs := linkSuffix_length url hurl
  have hne := linkSuffix_ne_nil url hurl
  have hallowed : maxAllowedDescLength (linkSuffix url).length = a := by
    unfold maxAllowedDescLength maxDescLength
    simp only
    rw [if_neg (by push_cast; omega)]
    push_cast; omega
  have htrunc : truncateDesc desc url = desc.take a.toNat ++ "...".toList := by
    unfold truncateDesc
    simp only [hallowed]
    rw [if_pos hlen, if_pos ha3]
  have happ : appendLink desc url = desc.take a.toNat ++ "...".toList ++ linkSuffix url := by
    unfold appendLink
    simp only [htrunc]
    rw [if_pos hne]
  have hdots : "...".toList.length = 3 := rfl
  have hlen2 : (desc.take a.toNat ++ "...".toList ++ linkSuffix url).length = 1983 := by
    rw [List.length_append, List.length_append, List.length_take, hdots]
    omega
  have hfin : finalizeDesc desc url = desc.take a.toNat ++ "...".toList ++ linkSuffix url := by
    unfold finalizeDesc maxDescLength
    simp only [happ]
    rw [if_neg (by rw [hlen2]; decide)]
  refine ⟨hfin, by rw [hfin]; exact hlen2, by omega, ?_⟩
  intro t w video context savedVideo r hrec hdesc hsrc hr
  obtain ⟨st, h1, _, h3, _⟩ := buildStudioInfo_record t w video context savedVideo hrec
  rw [h1] at hr
  cases hr
  show st.Desc = _
  rw [h3, hdesc, hsrc, hfin]

/-- Witness of C10: a body of 2050 code points with the sample URL, whose
suffix has 114 code points, is cut to its first 1866 code points. -/
theorem finalizeDesc_truncated_witness :
    finalizeDesc (List.replicate 2050 'a') sampleRecord.URL =
      (List.replicate 2050 'a').take 1866 ++ "...".toList ++ linkSuffix sampleRecord.URL ∧
    (finalizeDesc (List.replicate 2050 'a') sampleRecord.URL).length = 1983 := by
  have h := finalizeDesc_truncated (List.replicate 2050 'a') sampleRecord.URL 1866 (by decide)
    (by decide) (by decide) (by rw [List.length_replicate]; decide)
  exact ⟨h.1, h.2.1⟩

/-! ## Claims on the description truncation -/

/-- C11 as stated fails: with a source URL of 1909 code points the suffix has
1980, the allowed length is 0, and for the one-letter body the description
before the final cut is the suffix alone, without the ellipsis. -/
theorem appendLink_no_ellipsis :
    max 0 (2000 - ((linkSuffix tightUrlRecord.URL).length : Int) - 20) = 0 ∧
    ("x".toList.length : Int) > 0 ∧
    appendLink "x".toList tightUrlRecord.URL ≠
      "x".toList.take 0 ++ "...".toList ++ linkSuffix tightUrlRecord.URL := by
  have h7 : tightUrlRecord.URL.length = 1909 := List.length_replicate 1909 'a'
  have hurl : tightUrlRecord.URL ≠ [] := by
    intro h
    rw [h] at h7
    exact absurd h7 (by decide)
  have hs := linkSuffix_length tightUrlRecord.URL hurl
  have hmax : maxAllowedDescLength (linkSuffix tightUrlRecord.URL).length = 0 := by
    rw [maxAllowedDescLength_eq_max, hs, h7]; decide
  refine ⟨by rw [hs, h7]; decide, by decide, ?_⟩
  have h := (appendLink_truncated_cases "x".toList tightUrlRecord.URL
    (by rw [hmax]; decide)).2 (by rw [hmax]; decide)
  rw [h]
  intro heq
  have hl := congrArg List.length heq
  rw [List.length_append, List.length_append] at hl
  have h3 : "...".toList.length = 3 := rfl
  rw [h3] at hl
  omega

/-- C11, amended: with the allowed length `a = max(0, 2000 - s - 20)` for a
suffix of `s` code points, a body of more than `a` code points gives, before
the final cut, its first `a` code points, the ellipsis and the suffix when
`a` is above 3, and the suffix alone, the body dropped without an ellipsis,
when `a` is 0, 1, 2 or 3; the final description is the first 2000 code points
of that text. -/
theorem appendLink_truncated (desc url : Str) (a : Int)
    (ha : a = max 0 (2000 - ((linkSuffix url).length : Int) - 20))
    (hlen : (desc.length : Int) > a) :
    (a > 3 → appendLink desc url = desc.take a.toNat ++ "...".toList ++ linkSuffix url) ∧
    (a ≤ 3 → appendLink desc url = linkSuffix url) ∧
    finalizeDesc desc url = (appendLink desc url).take 2000 := by
  rw [← maxAllowedDescLength_eq_max] at ha
  subst ha
  exact ⟨(appendLink_truncated_cases desc url hlen).1, (appendLink_truncated_cases desc url hlen).2,
    finalizeDesc_eq_take desc url⟩

/-- Witness of the amended C11: the one-letter body with the source URL of
1909 code points, allowed length 0, leaves the suffix alone. -/
theorem appendLink_truncated_witness :
    appendLink "x".toList tightUrlRecord.URL = linkSuffix tightUrlRecord.URL := by
  have h7 : tightUrlRecord.URL.length = 1909 := List.length_replicate 1909 'a'
  have hurl : tightUrlRecord.URL ≠ [] := by
    intro h
    rw [h] at h7
    exact absurd h7 (by decide)
  have hs := linkSuffix_length tightUrlRecord.URL hurl
  exact (appendLink_truncated "x".toList tightUrlRecord.URL 0 (by rw [hs, h7]; decide)
    (by decide)).2.1 (by decide)

/-! ## Claims on the validity filter -/

/-- C12 fails on the code: the filter rejects a description exactly when it
is empty or it contains a blacklisted string and its length in bytes is under
50; the description of 20 code points and 60 bytes that contains the
blacklisted default description is accepted, although it has fewer than 50
code points. -/
theorem isValidDescription_counts_bytes :
    (∀ desc : Str, isValidDescription desc = false ↔
      desc = [] ∨ ((∃ invalid ∈ invalidDescriptions, invalid <:+: desc) ∧ utf8Len desc < 50)) ∧
    chineseBoilerplate.length = 20 ∧ utf8Len chineseBoilerplate = 60 ∧
    "自动上传的视频".toList <:+: chineseBoilerplate ∧
    isValidDescription chineseBoilerplate = true := by
  refine ⟨?_, by decide, by decide, (stringsContains_iff _ _).mp (by decide), by decide⟩
  intro desc
  unfold isValidDescription
  by_cases hnil : desc = []
  · simp only [hnil, if_true, true_or]
  · simp only [hnil, if_false, false_or, Bool.not_eq_false', List.any_eq_true, Bool.and_eq_true,
      decide_eq_true_eq, stringsContains_iff]
    constructor
    · rintro ⟨invalid, hmem, hin, hlen⟩
      exact ⟨⟨invalid, hmem, hin⟩, hlen⟩
    · rintro ⟨⟨invalid, hmem, hin⟩, hlen⟩
      exact ⟨invalid, hmem, hin, hlen⟩

/-! ## Claims on the title -/

/-- C13 fails on the code: for the source title "#shorts", which is not empty
and cleans to the empty string, with an AI title at hand and no
configuration, the title chosen is the empty string, not the AI title; the
fallback tests the source title before it is cleaned. -/
theorem selectTitle_hashtag_only :
    cleanTitle "#shorts".toList = [] ∧ shortsRecord.GeneratedTitle ≠ [] ∧
    selectTitle sampleHandler.VideoID none shortsRecord = [] ∧
    ∃ r, buildStudioInfo sampleHandler (sampleCollaborators shortsRecord acceptedResult)
        ⟨[], []⟩ emptyContext = some r ∧ r.1.Title = [] := by
  obtain ⟨st, h1, h2, _⟩ := buildStudioInfo_record sampleHandler
    (sampleCollaborators shortsRecord acceptedResult) ⟨[], []⟩ emptyContext shortsRecord rfl
  refine ⟨by decide, by decide, by decide, _, h1, ?_⟩
  show st.Title = []
  rw [h2]
  decide

/-- C14 as stated fails: in "C#sharp" the hash sign is not preceded by
whitespace, yet it is removed with the run that follows it, because the
pattern allows zero whitespace characters before the hash sign. -/
theorem cleanTitle_removes_glued_tag :
    cleanTitle "C#sharp".toList = "C".toList ∧
    cleanTitle "C#sharp".toList ≠ "C#sharp".toList := by
  refine ⟨by decide, by decide⟩

/-- C14, amended: `cleanTitle` is three passes, each fixed by the laws below.
First the hashtag tokens are removed, scanning from the left: a text that
begins with a token (zero or more whitespace characters, the hash sign, and
the whole non-empty run of characters that are neither whitespace nor a hash
sign) loses the token and the scan goes on after it; a text that does not
begin with whitespace, a hash sign and a character that is neither whitespace
nor a hash sign keeps its first character, so a hash sign followed by
whitespace, by another hash sign or by the end of the title is kept. Then the
Unicode white space at both ends is trimmed. Then each run of whitespace
becomes one space. Whitespace in the first and third pass is the class
`[\t\n\f\r ]`. Hence a title without a hash sign is only trimmed and
collapsed, and a token after a text without a hash sign that does not end in
whitespace can be left out. "Amazing Trip #travel #fun" becomes
"Amazing Trip", "C#sharp" becomes "C", and "C# is fun #code" becomes
"C# is fun". -/
theorem cleanTitle_removes_token (title : Str) :
    cleanTitle title =
      regexpReplaceAll spacesMatch " ".toList 0
        (stringsTrimSpace (regexpReplaceAll hashtagMatch [] 0 title)) ∧
    regexpReplaceAll hashtagMatch [] 0 [] = [] ∧
    (∀ ws tag post : Str, (∀ c ∈ ws, reSpace c = true) → tag ≠ [] →
      (∀ c ∈ tag, reSpace c = false ∧ c ≠ '#') →
      (∀ c, post.head? = some c → reSpace c = true ∨ c = '#') →
      regexpReplaceAll hashtagMatch [] 0 (ws ++ '#' :: (tag ++ post)) =
        regexpReplaceAll hashtagMatch [] 0 post) ∧
    (∀ (c : Char) (cs : Str),
      (∀ ws d rest, c :: cs = ws ++ '#' :: d :: rest → (∀ x ∈ ws, reSpace x = true) →
        reSpace d = false → d ≠ '#' → False) →
      regexpReplaceAll hashtagMatch [] 0 (c :: cs) =
        c :: regexpReplaceAll hashtagMatch [] 0 cs) ∧
    (∀ a s b : Str, (∀ c ∈ a, unicodeIsSpace c = true) → (∀ c ∈ b, unicodeIsSpace c = true) →
      (∀ c, s.head? = some c → unicodeIsSpace c = false) →
      (∀ c, s.getLast? = some c → unicodeIsSpace c = false) →
      stringsTrimSpace (a ++ s ++ b) = s) ∧
    regexpReplaceAll spacesMatch " ".toList 0 [] = [] ∧
    (∀ (c : Char) (cs : Str), reSpace c = false →
      regexpReplaceAll spacesMatch " ".toList 0 (c :: cs) =
        c :: regexpReplaceAll spacesMatch " ".toList 0 cs) ∧
    (∀ (c : Char) (cs : Str), reSpace c = true →
      regexpReplaceAll spacesMatch " ".toList 0 (c :: cs) =
        ' ' :: regexpReplaceAll spacesMatch " ".toList 0 (cs.dropWhile reSpace)) ∧
    (∀ pre ws tag post : Str, (∀ c ∈ pre, c ≠ '#') →
      (∀ c, pre.getLast? = some c → reSpace c = false) →
      (∀ c ∈ ws, reSpace c = true) → tag ≠ [] →
      (∀ c ∈ tag, reSpace c = false ∧ c ≠ '#') →
      (∀ c, post.head? = some c → reSpace c = true ∨ c = '#') →
      cleanTitle (pre ++ (ws ++ '#' :: (tag ++ post))) = cleanTitle (pre ++ post)) ∧
    (∀ s : Str, (∀ c ∈ s, c ≠ '#') →
      cleanTitle s = regexpReplaceAll spacesMatch " ".toList 0 (stringsTrimSpace s)) ∧
    cleanTitle "Amazing Trip #travel #fun".toList = "Amazing Trip".toList ∧
    cleanTitle "C#sharp".toList = "C".toList ∧
    cleanTitle "C# is fun #code".toList = "C# is fun".toList := by
  refine ⟨rfl, rfl, removeTags_token_head, removeTags_keep, stringsTrimSpace_padded, rfl,
    collapse_cons_neg, collapse_cons_pos, ?_, ?_, by decide, by decide, by decide⟩
  · intro pre ws tag post hpre hend hws htag htagc hpost
    unfold cleanTitle
    simp only [removeTags_token pre ws tag post hpre hend hws htag htagc hpost]
  · intro s hs
    unfold cleanTitle
    simp only [removeTags_no_hash s hs]

/-- Witness of the amended C14: in " #travel #fun" the token " #travel" at the
head is removed, and in "# is fun #code" the hash sign at the head, followed by
a space, starts no token and is kept. -/
theorem cleanTitle_removes_token_witness :
    regexpReplaceAll hashtagMatch [] 0 (" ".toList ++ '#' :: ("travel".toList ++ " #fun".toList)) =
      regexpReplaceAll hashtagMatch [] 0 " #fun".toList ∧
    regexpReplaceAll hashtagMatch [] 0 ('#' :: " is fun #code".toList) =
      '#' :: regexpReplaceAll hashtagMatch [] 0 " is fun #code".toList ∧
    cleanTitle "C# is fun #code".toList = "C# is fun".toList :=
  ⟨(cleanTitle_removes_token []).2.2.1 " ".toList "travel".toList " #fun".toList
      (by decide) (by decide) (by decide)
      (fun c hc => by
        have h : " #fun".toList.head? = some ' ' := by decide
        rw [h] at hc
        cases hc
        decide),
    (cleanTitle_removes_token []).2.2.2.1 '#' " is fun #code".toList
      (fun ws d rest heq hws hd _ => by
        cases ws with
        | nil =>
          have h2 : some ' ' = some d := congrArg (fun l => l.tail.head?) heq
          cases h2
          exact absurd hd (by decide)
        | cons x ws' =>
          have h2 : some '#' = some x := congrArg List.head? heq
          cases h2
          exact absurd (hws '#' (List.mem_cons_self _ _)) (by decide)),
    (cleanTitle_removes_token "C# is fun #code".toList).2.2.2.2.2.2.2.2.2.2.2.2⟩

/-- C15 as stated fails: with the template made of the source title
placeholder and the source title "Try {ai_title} now", the second replacement
runs over the text the first one put in, so the AI title placeholder that
came with the source title is expanded; the one-pass substitution of the
claim leaves it as it is. -/
theorem selectTitle_template_reexpands :
    echoTemplateConfig.CustomTitleTemplate ≠ [] ∧
    selectTitle sampleHandler.VideoID (some echoTemplateConfig) placeholderRecord =
      "Try 两周公路旅行 now".toList ∧
    substituteTemplate (cleanTitle placeholderRecord.Title) placeholderRecord.GeneratedTitle 0
      echoTemplateConfig.CustomTitleTemplate = "Try {ai_title} now".toList ∧
    selectTitle sampleHandler.VideoID (some echoTemplateConfig) placeholderRecord ≠
      substituteTemplate (cleanTitle placeholderRecord.Title) placeholderRecord.GeneratedTitle 0
        echoTemplateConfig.CustomTitleTemplate := by
  refine ⟨by decide, by decide, by decide, by decide⟩

/-- C15, amended: with a custom title template that is not empty, whatever
`UseOriginalTitle` is, the title before truncation is the template in which
first every occurrence of the source title placeholder is replaced by the
cleaned source title, and then every occurrence of the AI title placeholder
in the resulting text, the substituted source title included, is replaced by
the AI title. The `Title` of the returned spec is that text cut to 80 code
points. -/
theorem selectTitle_template (title : Str) (cfg : BilibiliConfig) (savedVideo : SavedVideo)
    (htemplate : cfg.CustomTitleTemplate ≠ []) :
    selectTitle title (some cfg) savedVideo =
      stringsReplaceAll
        (stringsReplaceAll cfg.CustomTitleTemplate "{original_title}".toList
          (cleanTitle savedVideo.Title))
        "{ai_title}".toList savedVideo.GeneratedTitle ∧
    (∀ useOriginalTitle : Bool,
      selectTitle title (some { cfg with UseOriginalTitle := useOriginalTitle }) savedVideo =
        selectTitle title (some cfg) savedVideo) ∧
    ∀ (t : UploadToBilibili) (w : Collaborators) (video : Video) (context : Context)
      (r : Studio × Video), t.BilibiliConfig = some cfg →
      loadRecord w = .ok (some savedVideo) → buildStudioInfo t w video context = some r →
      r.1.Title = limitTitle (stringsReplaceAll
        (stringsReplaceAll cfg.CustomTitleTemplate "{original_title}".toList
          (cleanTitle savedVideo.Title))
        "{ai_title}".toList savedVideo.GeneratedTitle) := by
  have hsel : ∀ (title₀ : Str) (c : BilibiliConfig),
      c.CustomTitleTemplate = cfg.CustomTitleTemplate →
      selectTitle title₀ (some c) savedVideo =
      stringsReplaceAll
        (stringsReplaceAll cfg.CustomTitleTemplate "{original_title}".toList
          (cleanTitle savedVideo.Title))
        "{ai_title}".toList savedVideo.GeneratedTitle := by
    intro title₀ c hc
    unfold selectTitle
    simp only [hc, htemplate, ne_eq, not_false_eq_true, if_true]
  refine ⟨hsel title cfg rfl, ?_, ?_⟩
  · intro useOriginalTitle
    rw [hsel title cfg rfl]
    exact hsel title { cfg with UseOriginalTitle := useOriginalTitle } rfl
  · intro t w video context r hcfg hrec hr
    obtain ⟨st, h1, h2, _⟩ := buildStudioInfo_record t w video context savedVideo hrec
    rw [h1] at hr
    cases hr
    show st.Title = _
    rw [h2, hcfg, hsel t.VideoID cfg rfl]

/-- Witness of the amended C15: the template "[Re-upload] {original_title}"
with the source title "Cats" gives "[Re-upload] Cats". -/
theorem selectTitle_template_witness :
    selectTitle sampleHandler.VideoID (some reuploadTemplateConfig) catsRecord =
      "[Re-upload] Cats".toList := by
  rw [(selectTitle_template sampleHandler.VideoID reuploadTemplateConfig catsRecord
    (by decide)).1]
  decide

/-! ## Claims on the description selection -/

/-- C16: in the default description mode (no configuration, or no custom
description template and `UseOriginalDesc` false) the body is the AI
description, the separator with the banner line and the heading, and the
source description when the AI description is not empty and the source
description passes the filter; the AI description alone when only it is not
empty; the source description alone when only it passes the filter; and
empty otherwise. The `Desc` of the returned spec is the suffix handling
applied to that body. -/
theorem selectDesc_default (biliConfig : Option BilibiliConfig) (savedVideo : SavedVideo)
    (body : Str)
    (hmode : biliConfig = none ∨
      ∃ cfg, biliConfig = some cfg ∧ cfg.CustomDescTemplate = [] ∧ cfg.UseOriginalDesc = false)
    (hbody : body =
      if savedVideo.GeneratedDesc ≠ [] ∧ isValidDescription savedVideo.Description = true then
        savedVideo.GeneratedDesc ++ "\n\n".toList ++
          "━━━━━━━━━━━━━━━━━━━━━━━━━━━━━━━━━━━━━━━━".toList ++ "\n📄 原视频简介：\n".toList ++
          savedVideo.Description
      else if savedVideo.GeneratedDesc ≠ [] then savedVideo.GeneratedDesc
      else if isValidDescription savedVideo.Description = true then savedVideo.Description
      else []) :
    selectDesc biliConfig savedVideo = body ∧
    ∀ (t : UploadToBilibili) (w : Collaborators) (video : Video) (context : Context)
      (r : Studio × Video), t.BilibiliConfig = biliConfig →
      loadRecord w = .ok (some savedVideo) → buildStudioInfo t w video context = some r →
      r.1.Desc = finalizeDesc body savedVideo.URL := by
  have hsel : selectDesc biliConfig savedVideo = body := by
    rw [selectDesc_default_mode biliConfig savedVideo hmode, defaultDesc_cases, hbody]
    have hsep : ∀ x y : Str, x ++ descSeparator ++ y = x ++ "\n\n".toList ++
        "━━━━━━━━━━━━━━━━━━━━━━━━━━━━━━━━━━━━━━━━".toList ++ "\n📄 原视频简介：\n".toList ++ y := by
      intro x y
      simp only [List.append_assoc]
      rfl
    rw [hsep]
  refine ⟨hsel, ?_⟩
  intro t w video context r hcfg hrec hr
  obtain ⟨st, h1, _, h3, _⟩ := buildStudioInfo_record t w video context savedVideo hrec
  rw [h1] at hr
  cases hr
  show st.Desc = _
  rw [h3, hcfg, hsel]

/-- Witness of C16 on the sample record without configuration: both
descriptions are joined by the separator. -/
theorem selectDesc_default_witness :
    selectDesc none sampleRecord =
      "一次两周的公路旅行记录\n\n━━━━━━━━━━━━━━━━━━━━━━━━━━━━━━━━━━━━━━━━\n📄 原视频简介：\nTwo weeks on the road.".toList :=
  (selectDesc_default none sampleRecord _ (Or.inl rfl) (by decide)).1

/-- C17: in the prefer-source description mode (no custom description
template, `UseOriginalDesc` true) the body is the source description when it
passes the filter, otherwise the AI description when that is not empty,
otherwise empty; a source description that passes the filter is used whatever
the AI description is. The `Desc` of the returned spec is the suffix handling
applied to that body. -/
theorem selectDesc_prefer_source (cfg : BilibiliConfig) (savedVideo : SavedVideo)
    (htemplate : cfg.CustomDescTemplate = []) (hprefer : cfg.UseOriginalDesc = true) :
    selectDesc (some cfg) savedVideo =
      (if isValidDescription savedVideo.Description = true then savedVideo.Description
       else if savedVideo.GeneratedDesc ≠ [] then savedVideo.GeneratedDesc
       else []) ∧
    (isValidDescription savedVideo.Description = true →
      selectDesc (some cfg) savedVideo = savedVideo.Description) ∧
    ∀ (t : UploadToBilibili) (w : Collaborators) (video : Video) (context : Context)
      (r : Studio × Video), t.BilibiliConfig = some cfg →
      loadRecord w = .ok (some savedVideo) → buildStudioInfo t w video context = some r →
      r.1.Desc = finalizeDesc
        (if isValidDescription savedVideo.Description = true then savedVideo.Description
         else if savedVideo.GeneratedDesc ≠ [] then savedVideo.GeneratedDesc
         else []) savedVideo.URL := by
  have hsel : selectDesc (some cfg) savedVideo =
      (if isValidDescription savedVideo.Description = true then savedVideo.Description
       else if savedVideo.GeneratedDesc ≠ [] then savedVideo.GeneratedDesc
       else []) := by
    unfold selectDesc
    simp only [htemplate, hprefer, ne_eq, not_true_eq_false, if_false, if_true]
  refine ⟨hsel, ?_, ?_⟩
  · intro hv
    rw [hsel, if_pos hv]
  · intro t w video context r hcfg hrec hr
    obtain ⟨st, h1, _, h3, _⟩ := buildStudioInfo_record t w video context savedVideo hrec
    rw [h1] at hr
    cases hr
    show st.Desc = _
    rw [h3, hcfg, hsel]

/-- Witness of C17 on the sample record: its source description passes the
filter and is the body, the AI description is not used. -/
theorem selectDesc_prefer_source_witness :
    selectDesc (some preferSourceConfig) sampleRecord = "Two weeks on the road.".toList :=
  (selectDesc_prefer_source preferSourceConfig sampleRecord rfl rfl).2.1 (by decide)

/-! ## Claims on the tags -/

/-- C18: the `Tag` of the returned spec is the record's AI tags when they are
not empty, and the default tag "视频" when they are empty or the record is
not available; it is never empty, and it is the same for every handler state,
title and description configuration included. -/
theorem buildStudioInfo_tag (t : UploadToBilibili) (w : Collaborators) (video : Video)
    (context : Context) (r : Studio × Video)
    (hr : buildStudioInfo t w video context = some r) :
    (∀ savedVideo, loadRecord w = .ok (some savedVideo) →
      r.1.Tag = if savedVideo.GeneratedTags ≠ [] then savedVideo.GeneratedTags
        else "视频".toList) ∧
    (∀ err, loadRecord w = .error err → r.1.Tag = "视频".toList) ∧
    r.1.Tag ≠ [] ∧
    ∀ (t' : UploadToBilibili) (video' : Video) (context' : Context) (r' : Studio × Video),
      buildStudioInfo t' w video' context' = some r' → r'.1.Tag = r.1.Tag := by
  have key : ∀ (t₀ : UploadToBilibili) (video₀ : Video) (context₀ : Context)
      (r₀ : Studio × Video), buildStudioInfo t₀ w video₀ context₀ = some r₀ →
      (∀ savedVideo, loadRecord w = .ok (some savedVideo) →
        r₀.1.Tag = if savedVideo.GeneratedTags ≠ [] then savedVideo.GeneratedTags
          else "视频".toList) ∧
      (∀ err, loadRecord w = .error err → r₀.1.Tag = "视频".toList) := by
    intro t₀ video₀ context₀ r₀ h₀
    constructor
    · intro savedVideo hrec
      obtain ⟨st, h1, _, _, h4⟩ := buildStudioInfo_record t₀ w video₀ context₀ savedVideo hrec
      rw [h1] at h₀
      cases h₀
      show st.Tag = _
      rw [h4]
      rfl
    · intro err hrec
      obtain ⟨st, h1, _, _, h4⟩ := buildStudioInfo_noRecord t₀ w video₀ context₀ err hrec
      rw [h1] at h₀
      cases h₀
      exact h4
  obtain ⟨hk1, hk2⟩ := key t video context r hr
  refine ⟨hk1, hk2, ?_, ?_⟩
  · cases hrec : loadRecord w with
    | error err => rw [hk2 err hrec]; decide
    | ok rec =>
      cases rec with
      | none =>
        rw [buildStudioInfo_nil t w video context hrec] at hr
        cases hr
      | some savedVideo =>
        rw [hk1 savedVideo hrec]
        split
        · assumption
        · decide
  · intro t' video' context' r' hr'
    obtain ⟨hk1', hk2'⟩ := key t' video' context' r' hr'
    cases hrec : loadRecord w with
    | error err => rw [hk2 err hrec, hk2' err hrec]
    | ok rec =>
      cases rec with
      | none =>
        rw [buildStudioInfo_nil t w video context hrec] at hr
        cases hr
      | some savedVideo => rw [hk1 savedVideo hrec, hk1' savedVideo hrec]

/-- Witness of C18 on the sample record: the spec carries the AI tags. -/
theorem buildStudioInfo_tag_witness :
    ∃ r, buildStudioInfo sampleHandler (sampleCollaborators sampleRecord acceptedResult)
        ⟨[], []⟩ emptyContext = some r ∧ r.1.Tag = "旅行,公路".toList := by
  obtain ⟨r, hr⟩ := Option.isSome_iff_exists.mp
    (buildStudioInfo_isSome sampleHandler (sampleCollaborators sampleRecord acceptedResult)
      ⟨[], []⟩ emptyContext (by decide))
  refine ⟨r, hr, ?_⟩
  rw [(buildStudioInfo_tag sampleHandler (sampleCollaborators sampleRecord acceptedResult)
    ⟨[], []⟩ emptyContext r hr).1 sampleRecord rfl]
  decide

/-! ## Claims on the AI response parser -/

/-- C19 as stated fails: for the language tag "yaml" the text handed to the
decoder keeps the tag in front of the object, so a decoder that accepts the
object alone rejects the fenced response. -/
theorem stripCodeFence_keeps_tag :
    stripCodeFence ("```".toList ++ "yaml".toList ++ "\n".toList ++ titleObject ++ "\n```".toList) =
      "yaml\n".toList ++ titleObject ∧
    stripCodeFence ("```".toList ++ "yaml".toList ++ "\n".toList ++ titleObject ++ "\n```".toList) ≠
      titleObject ∧
    parseMetadataJSON titleDecoder titleObject =
      .ok { Title := "a".toList, Description := [], Tags := [] } ∧
    ∃ e, parseMetadataJSON titleDecoder
      ("```".toList ++ "yaml".toList ++ "\n".toList ++ titleObject ++ "\n```".toList) = .error e := by
  refine ⟨by decide, by decide, by decide, _, rfl⟩

/-- C19, amended: for every object text `j` that starts with an opening brace
and ends with a closing brace, and for the empty language tag and the tag
"json", the text handed to the decoder for the fenced response is exactly
`j`, as it is for `j` alone, so the fenced response parses to the same result
as `j` alone. -/
theorem stripCodeFence_fenced (j : Str) (hopen : j.head? = some '{')
    (hclose : j.getLast? = some '}') :
    stripCodeFence ("```".toList ++ "".toList ++ "\n".toList ++ j ++ "\n```".toList) = j ∧
    stripCodeFence ("```".toList ++ "json".toList ++ "\n".toList ++ j ++ "\n```".toList) = j ∧
    stripCodeFence j = j ∧
    ∀ jsonUnmarshal : Str → Except Str VideoMetadata,
      parseMetadataJSON jsonUnmarshal
          ("```".toList ++ "".toList ++ "\n".toList ++ j ++ "\n```".toList) =
        parseMetadataJSON jsonUnmarshal j ∧
      parseMetadataJSON jsonUnmarshal
          ("```".toList ++ "json".toList ++ "\n".toList ++ j ++ "\n```".toList) =
        parseMetadataJSON jsonUnmarshal j := by
  have hbare := stripCodeFence_bare j hopen hclose
  have hbody := stripCodeFence_body j hopen hclose
  have hplain : stripCodeFence ("```".toList ++ "".toList ++ "\n".toList ++ j ++ "\n```".toList) =
      j := by
    have hform : "```".toList ++ "".toList ++ "\n".toList ++ j ++ "\n```".toList =
        "```\n".toList ++ j ++ "\n```".toList := by
      simp only [List.append_assoc]; rfl
    have hsplit : "```\n".toList ++ j ++ "\n```".toList =
        "```".toList ++ (("\n".toList ++ j ++ "\n".toList) ++ "```".toList) := by
      simp only [List.append_assoc]; rfl
    have hnot : stringsHasPrefix ("```\n".toList ++ j ++ "\n```".toList) "```json".toList =
        false := rfl
    unfold stripCodeFence
    simp only [hform, stringsTrimSpace_fenced "```\n".toList j rfl, hnot, Bool.false_eq_true,
      if_false]
    rw [hsplit, stringsHasPrefix_append, if_pos rfl, stringsTrimPrefix_append,
      stringsTrimSuffix_append, hbody]
  have hjson : stripCodeFence
      ("```".toList ++ "json".toList ++ "\n".toList ++ j ++ "\n```".toList) = j := by
    have hform : "```".toList ++ "json".toList ++ "\n".toList ++ j ++ "\n```".toList =
        "```json\n".toList ++ j ++ "\n```".toList := by
      simp only [List.append_assoc]; rfl
    have hsplit : "```json\n".toList ++ j ++ "\n```".toList =
        "```json".toList ++ (("\n".toList ++ j ++ "\n".toList) ++ "```".toList) := by
      simp only [List.append_assoc]; rfl
    unfold stripCodeFence
    simp only [hform, stringsTrimSpace_fenced "```json\n".toList j rfl]
    rw [hsplit, stringsHasPrefix_append, if_pos rfl, stringsTrimPrefix_append,
      stringsTrimSuffix_append, hbody]
  refine ⟨hplain, hjson, hbare, ?_⟩
  intro jsonUnmarshal
  unfold parseMetadataJSON
  simp only [hplain, hjson, hbare, and_self]

/-- Witness of the amended C19: the object with a title, fenced with the tag
"json", is handed to the decoder as it is. -/
theorem stripCodeFence_fenced_witness :
    stripCodeFence ("```".toList ++ "json".toList ++ "\n".toList ++ titleObject ++
      "\n```".toList) = titleObject :=
  (stripCodeFence_fenced titleObject (by decide) (by decide)).2.1

/-- C20: `parseMetadataJSON` returns an error when the decoder rejects the
text and when the decoded title is empty (a missing title decodes to the
empty string); it returns the decoded metadata when the title is not empty,
so every metadata it returns has a title that is not empty. -/
theorem parseMetadataJSON_title (jsonUnmarshal : Str → Except Str VideoMetadata)
    (content : Str) :
    (∀ err, jsonUnmarshal (stripCodeFence content) = .error err →
      ∃ e, parseMetadataJSON jsonUnmarshal content = .error e) ∧
    (∀ metadata, jsonUnmarshal (stripCodeFence content) = .ok metadata → metadata.Title = [] →
      parseMetadataJSON jsonUnmarshal content = .error "生成的标题为空".toList) ∧
    (∀ metadata, jsonUnmarshal (stripCodeFence content) = .ok metadata → metadata.Title ≠ [] →
      parseMetadataJSON jsonUnmarshal content = .ok metadata) ∧
    (∀ metadata, parseMetadataJSON jsonUnmarshal content = .ok metadata →
      metadata.Title ≠ []) := by
  refine ⟨?_, ?_, ?_, ?_⟩
  · intro err h
    unfold parseMetadataJSON
    simp only [h]
    exact ⟨_, rfl⟩
  · intro metadata h ht
    unfold parseMetadataJSON
    simp only [h, ht, if_true]
  · intro metadata h ht
    unfold parseMetadataJSON
    simp only [h, ht, if_false]
  · intro metadata h
    unfold parseMetadataJSON at h
    simp only at h
    split at h
    · cases h
    · split at h
      · cases h
      · cases h
        assumption

/-- Witness of C20: the response `{}`, whose title is absent, is an error. -/
theorem parseMetadataJSON_title_witness :
    parseMetadataJSON emptyObjectDecoder "{}".toList = .error "生成的标题为空".toList :=
  (parseMetadataJSON_title emptyObjectDecoder "{}".toList).2.1
    { Title := [], Description := [], Tags := [] } (by decide) rfl

/-! ## Claims on the asset lookup -/

/-- C21: `findVideoFiles` returns, in the order of the directory listing, the
paths of exactly the entries that are not directories and whose extension,
lower-cased, is one of the six video extensions (the empty list when the
directory cannot be read); with a valid credential, `Execute` passes the
first path of that list to `UploadVideo`, and when the list is empty it
returns false without an upload and leaves a non-empty text under "error". -/
theorem findVideoFiles_first_match (t : UploadToBilibili) (w : Collaborators)
    (context : Context) :
    (∀ err, w.readDir = .error err → findVideoFiles t w = []) ∧
    (∀ files, w.readDir = .ok files →
      findVideoFiles t w =
        (files.filter fun file => !file.IsDir && videoExtensions.any fun videoExt =>
          stringsToLower (filepathExt file.Name) == stringsToLower videoExt).map
          fun file => w.filepathJoin t.CurrentDir file.Name) ∧
    videoExtensions = [".mp4".toList, ".flv".toList, ".mkv".toList, ".webm".toList,
      ".avi".toList, ".mov".toList] ∧
    (∀ (u : Unit) (videoPath : Str) (rest : List Str) (o : Outcome),
      w.loginIsValid = true → w.loginLoad = .ok u → findVideoFiles t w = videoPath :: rest →
      Execute t w context = some o → o.uploaded = some videoPath) ∧
    (∀ u : Unit, w.loginIsValid = true → w.loginLoad = .ok u → findVideoFiles t w = [] →
      ∃ o msg, Execute t w context = some o ∧ o.ok = false ∧ o.uploaded = none ∧
        o.context "error".toList = some (.str msg) ∧ msg ≠ []) := by
  refine ⟨?_, findVideoFiles_ok t w, rfl, ?_, ?_⟩
  · intro err h
    unfold findVideoFiles
    simp only [h]
  · intro u videoPath rest o hvalid hload hfiles h
    exact Execute_uploaded t w context u videoPath rest o hvalid hload hfiles h
  · intro u hvalid hload hfiles
    refine ⟨_, "未找到视频文件".toList, Execute_noFiles t w context u hvalid hload hfiles, rfl, rfl,
      ?_, by decide⟩
    simp [Context.set]

/-- Witness of C21: of the five entries listed, the two video files are
returned in listing order, the upper-case extension included, and the first
of them is the one uploaded; an unreadable directory makes `Execute` fail
with a non-empty error. -/
theorem findVideoFiles_first_match_witness :
    findVideoFiles sampleHandler listingCollaborators =
      ["/data/dQw4w9WgXcQ/b.MKV".toList, "/data/dQw4w9WgXcQ/a.mp4".toList] ∧
    (∃ o, Execute sampleHandler listingCollaborators emptyContext = some o ∧
      o.uploaded = some "/data/dQw4w9WgXcQ/b.MKV".toList) ∧
    (∃ o msg, Execute sampleHandler unreadableCollaborators emptyContext = some o ∧
      o.ok = false ∧ o.uploaded = none ∧
      o.context "error".toList = some (.str msg) ∧ msg ≠ []) := by
  have h := findVideoFiles_first_match sampleHandler listingCollaborators emptyContext
  have h' := findVideoFiles_first_match sampleHandler unreadableCollaborators emptyContext
  refine ⟨by decide, ?_, ?_⟩
  · obtain ⟨o, ho⟩ := Option.isSome_iff_exists.mp
      (Execute_isSome sampleHandler listingCollaborators emptyContext (by decide))
    exact ⟨o, ho, h.2.2.2.1 () "/data/dQw4w9WgXcQ/b.MKV".toList
      ["/data/dQw4w9WgXcQ/a.mp4".toList] o rfl rfl (by decide) ho⟩
  · exact h'.2.2.2.2 () rfl rfl (h'.1 _ rfl)

/-! ## Claims on descriptions that fit -/

/-- C22: a body of at most `a = max(0, 2000 - s - 20)` code points, for a
suffix of `s` code points with `s` at most 2000, is not altered: the final
description is the body followed by the suffix, which is the body alone when
the source URL is empty; no ellipsis is inserted and nothing is removed. The
same holds for the `Desc` of the spec returned by `buildStudioInfo` for a
record with that body and URL. -/
theorem finalizeDesc_fits (desc url : Str) (a : Int)
    (ha : a = max 0 (2000 - ((linkSuffix url).length : Int) - 20))
    (hfit : (desc.length : Int) ≤ a) (hsuffix : (linkSuffix url).length ≤ 2000) :
    finalizeDesc desc url = desc ++ linkSuffix url ∧
    (url = [] → finalizeDesc desc url = desc) ∧
    ∀ (t : UploadToBilibili) (w : Collaborators) (video : Video) (context : Context)
      (savedVideo : SavedVideo) (r : Studio × Video),
      loadRecord w = .ok (some savedVideo) → selectDesc t.BilibiliConfig savedVideo = desc →
      savedVideo.URL = url → buildStudioInfo t w video context = some r →
      r.1.Desc = desc ++ linkSuffix url := by
  rw [← maxAllowedDescLength_eq_max] at ha
  have htrunc : truncateDesc desc url = desc := by
    unfold truncateDesc
    simp only
    have hnot : ¬ (desc.length : Int) > maxAllowedDescLength (linkSuffix url).length := by
      rw [← ha]; omega
    rw [if_neg hnot]
  have happ : appendLink desc url = desc ++ linkSuffix url := by
    unfold appendLink
    simp only [htrunc]
    split
    · rfl
    · rename_i hnil
      have h2 : linkSuffix url = [] := by simpa using hnil
      rw [h2, List.append_nil]
  have hfin : finalizeDesc desc url = desc ++ linkSuffix url := by
    rw [finalizeDesc_eq_appendLink desc url hsuffix, happ]
  refine ⟨hfin, ?_, ?_⟩
  · intro hurl
    rw [hfin, hurl, linkSuffix_nil, List.append_nil]
  · intro t w video context savedVideo r hrec hdesc hsrc hr
    obtain ⟨st, h1, _, h3, _⟩ := buildStudioInfo_record t w video context savedVideo hrec
    rw [h1] at hr
    cases hr
    show st.Desc = _
    rw [h3, hdesc, hsrc, hfin]

/-- Witness of C22: the sample body with the sample URL, whose suffix has 114
code points, is followed by the suffix and otherwise unchanged. -/
theorem finalizeDesc_fits_witness :
    finalizeDesc (selectDesc none sampleRecord) sampleRecord.URL =
      selectDesc none sampleRecord ++ linkSuffix sampleRecord.URL :=
  (finalizeDesc_fits (selectDesc none sampleRecord) sampleRecord.URL 1866 (by decide)
    (by decide) (by decide)).1

/-! ## Claims on the idempotence of the title cleaning -/

/-- C23: `cleanTitle` is idempotent. The cleaned title holds no hash sign
immediately followed by a character that is neither whitespace nor a hash
sign, starts and ends with no white space, and holds no two consecutive
whitespace characters; its whitespace characters are plain spaces. A title is
left unchanged by `cleanTitle` exactly when it has these properties.
Whitespace is the class of the two patterns, tab, line feed, form feed,
carriage return and space; at the two ends it is the white space of
`strings.TrimSpace`, which contains that class. -/
theorem cleanTitle_idempotent (title : Str) :
    cleanTitle (cleanTitle title) = cleanTitle title ∧
    (∀ pre c post, cleanTitle title = pre ++ '#' :: c :: post → reSpace c = true ∨ c = '#') ∧
    (∀ c, (cleanTitle title).head? = some c → unicodeIsSpace c = false ∧ reSpace c = false) ∧
    (∀ c, (cleanTitle title).getLast? = some c → unicodeIsSpace c = false ∧ reSpace c = false) ∧
    (∀ pre c d post, cleanTitle title = pre ++ c :: d :: post →
      ¬ (reSpace c = true ∧ reSpace d = true)) ∧
    (∀ c ∈ cleanTitle title, reSpace c = true → c = ' ') ∧
    ∀ x : Str, cleanTitle x = x ↔
      (List.Chain' (fun a b => a = '#' → reSpace b = true ∨ b = '#') x ∧
        (∀ c, x.head? = some c → unicodeIsSpace c = false) ∧
        (∀ c, x.getLast? = some c → unicodeIsSpace c = false) ∧
        List.Chain' (fun a b => ¬ (reSpace a = true ∧ reSpace b = true)) x ∧
        ∀ c ∈ x, reSpace c = true → c = ' ') := by
  have hns : ∀ c, unicodeIsSpace c = false → reSpace c = false := by
    intro c hc
    cases hr : reSpace c
    · rfl
    · have h1 := reSpace_unicodeIsSpace c hr
      rw [hc] at h1
      cases h1
  have hinv : ∀ t : Str,
      List.Chain' (fun a b => a = '#' → reSpace b = true ∨ b = '#') (cleanTitle t) ∧
      (∀ c, (cleanTitle t).head? = some c → unicodeIsSpace c = false) ∧
      (∀ c, (cleanTitle t).getLast? = some c → unicodeIsSpace c = false) ∧
      List.Chain' (fun a b => ¬ (reSpace a = true ∧ reSpace b = true)) (cleanTitle t) ∧
      ∀ c ∈ cleanTitle t, reSpace c = true → c = ' ' := by
    intro t
    refine ⟨cleanTitle_noTag t, cleanTitle_head t, cleanTitle_getLast t, ?_, ?_⟩
    · unfold cleanTitle
      exact (collapse_collapsed _).1
    · unfold cleanTitle
      exact (collapse_collapsed _).2
  obtain ⟨h1, h2, h3, h4, h5⟩ := hinv title
  refine ⟨cleanTitle_fixed _ h1 h2 h3 h4 h5, ?_, ?_, ?_, ?_, h5, ?_⟩
  · intro pre c post heq
    rw [heq] at h1
    exact (List.chain'_append_cons_cons.mp h1).2.1 rfl
  · intro c hc
    exact ⟨h2 c hc, hns c (h2 c hc)⟩
  · intro c hc
    exact ⟨h3 c hc, hns c (h3 c hc)⟩
  · intro pre c d post heq
    rw [heq] at h4
    exact (List.chain'_append_cons_cons.mp h4).2.1
  · intro x
    constructor
    · intro hx
      have h := hinv x
      rw [hx] at h
      exact h
    · rintro ⟨g1, g2, g3, g4, g5⟩
      exact cleanTitle_fixed x g1 g2 g3 g4 g5

/-- Witness of C23: cleaning the padded example title a second time gives
"Amazing Trip" again. -/
theorem cleanTitle_idempotent_witness :
    cleanTitle (cleanTitle "  Amazing   Trip #travel #fun  ".toList) = "Amazing Trip".toList :=
  (cleanTitle_idempotent "  Amazing   Trip #travel #fun  ".toList).1.trans (by decide)

end Ytb2bili
